import Mathlib

/-!
Shallow embedding of the GPU-usage sampling/aggregation engine of
`update_gsheet.py`.  Python floats are modelled as rationals (ℚ), Python
ints as `Int`/`Nat`.  `Option` models the two locally-recovered failures:
`GpuDevice.procs = none` models `NVMLError_NotSupported` on process
listing, and a resolver returning `none` models `psutil.Error` on identity
lookup.
-/

namespace GpuLogger

/-- Round-half-to-even on rationals, the tie-breaking rule used by the Python
built-in `round`. -/
def roundHalfEven (q : ℚ) : ℤ :=
  let f : ℤ := ⌊q⌋
  let r : ℚ := q - f
  if r < 1 / 2 then f
  else if 1 / 2 < r then f + 1
  else if f % 2 = 0 then f else f + 1

/-- The Python `round(q, nd)` call on the idealised (rational) value. -/
def pyRound (q : ℚ) (nd : ℕ) : ℚ :=
  (roundHalfEven (q * 10 ^ nd) : ℚ) / 10 ^ nd

/-- A rational representable with three decimal digits, i.e. an integer
number of thousandths.  Every memory value the snapshot builder emits has
this form. -/
def ThreeDec (q : ℚ) : Prop := ∃ z : ℤ, q = (z : ℚ) / 1000

/-- One entry of `nvmlDeviceGetComputeRunningProcesses`. -/
structure ProcInfo where
  pid : Int
  usedGpuMemory : Int
deriving DecidableEq, Repr

/-- What `psutil.Process(pid)` yields when the process is alive:
its owning user name and command-line arguments. -/
structure PsProc where
  username : String
  cmdline : List String
deriving DecidableEq, Repr

/-- Identity resolver; `none` models `psutil.Error` (process exited or
inaccessible between device listing and lookup). -/
def Resolver : Type := Int → Option PsProc

/-- One device as reported by the management interface:
`nvmlDeviceGetUtilizationRates(handle).gpu`, `nvmlDeviceGetMemoryInfo(handle).total`
and the resident compute processes (`none` models `NVMLError_NotSupported`). -/
structure GpuDevice where
  util : Int
  memTotal : Int
  procs : Option (List ProcInfo)
deriving DecidableEq, Repr

/-- The `except NVMLError_NotSupported: proc_infos = []` recovery: an
unsupported process listing is treated as an empty process list. -/
def procList (d : GpuDevice) : List ProcInfo := d.procs.getD []

/-- Bytes of one gibibyte, `1024 ** 3`. -/
def gib : ℚ := (1024 : ℚ) ^ 3

/-- `round(bytes / (1024 ** 3), 3)`. -/
def memGb (bytes : Int) : ℚ := pyRound ((bytes : ℚ) / gib) 3

/-- `total_gb = round(gpu_mem.total / (1024 ** 3), 3)`. -/
def totalGb (d : GpuDevice) : ℚ := memGb d.memTotal

/-- The `try: user = psutil.Process(p.pid).username() except psutil.Error:
user = "unknown"` lookup of `_snapshot_internal`. -/
def userOf (resolve : Resolver) (pid : Int) : String :=
  match resolve pid with
  | some pr => pr.username
  | none => "unknown"

/-- One `usage_by_user[user] += mem_gb` step on the insertion-ordered
dict, modelled as an association list: an existing key is updated in
place, a new key is appended at the end. -/
def addUsage : List (String × ℚ) → String → ℚ → List (String × ℚ)
  | [], u, m => [(u, m)]
  | (k, v) :: rest, u, m =>
    if k = u then (k, v + m) :: rest else (k, v) :: addUsage rest u m

/-- The per-device `usage_by_user` dict of `_snapshot_internal` after the
loop over `proc_infos`. -/
def usageByUser (resolve : Resolver) (procs : List ProcInfo) : List (String × ℚ) :=
  procs.foldl (fun l p => addUsage l (userOf resolve p.pid) (memGb p.usedGpuMemory)) []

/-- One row of `_snapshot_internal`: `(user, gpu_id, mem_used_gb, total_gb, util)`. -/
structure InternalRow where
  user : String
  gpu : ℕ
  mem : ℚ
  total : ℚ
  util : Int
deriving DecidableEq, Repr

/-- Rows `_snapshot_internal` emits for device index `i`: the
`usage_by_user` entries, with `{"IDLE": 0.0}` substituted when the dict
is empty. -/
def deviceRowsInternal (resolve : Resolver) (i : ℕ) (d : GpuDevice) : List InternalRow :=
  let ub := usageByUser resolve (procList d)
  let ub2 := if ub.isEmpty then [("IDLE", (0 : ℚ))] else ub
  ub2.map (fun um => ⟨um.1, i, um.2, totalGb d, d.util⟩)

/-- The device loop of `_snapshot_internal`, indices counted from `i`. -/
def snapshotInternalAux (resolve : Resolver) : ℕ → List GpuDevice → List InternalRow
  | _, [] => []
  | i, d :: ds => deviceRowsInternal resolve i d ++ snapshotInternalAux resolve (i + 1) ds

/-- `_snapshot_internal()`, for the device list reported by the
management interface. -/
def snapshotInternal (resolve : Resolver) (devs : List GpuDevice) : List InternalRow :=
  snapshotInternalAux resolve 0 devs

/-- One row of `_snapshot_external`:
`(pid, cmd, user, gpu_id, mem_used_gb, total_gb, util)`. -/
structure ExternalRow where
  pid : Int
  cmd : String
  user : String
  gpu : ℕ
  mem : ℚ
  total : ℚ
  util : Int
deriving DecidableEq, Repr

/-- `" ".join(proc.cmdline())[:40]`. -/
def cmdOf (pr : PsProc) : String := (String.intercalate " " pr.cmdline).take 40

/-- The per-process row of `_snapshot_external`, with the
`except psutil.Error: user = "unknown"; cmd = "unknown"` recovery. -/
def externalProcRow (resolve : Resolver) (i : ℕ) (d : GpuDevice) (p : ProcInfo) : ExternalRow :=
  match resolve p.pid with
  | some pr => ⟨p.pid, cmdOf pr, pr.username, i, memGb p.usedGpuMemory, totalGb d, d.util⟩
  | none => ⟨p.pid, "unknown", "unknown", i, memGb p.usedGpuMemory, totalGb d, d.util⟩

/-- Rows `_snapshot_external` emits for device index `i`: the synthetic
`(0, "IDLE", "-", i, 0.0, total_gb, util)` row when `proc_infos` is
empty, then one row per resident process. -/
def deviceRowsExternal (resolve : Resolver) (i : ℕ) (d : GpuDevice) : List ExternalRow :=
  (if (procList d).isEmpty then [⟨0, "IDLE", "-", i, 0, totalGb d, d.util⟩] else [])
    ++ (procList d).map (externalProcRow resolve i d)

/-- The device loop of `_snapshot_external`, indices counted from `i`. -/
def snapshotExternalAux (resolve : Resolver) : ℕ → List GpuDevice → List ExternalRow
  | _, [] => []
  | i, d :: ds => deviceRowsExternal resolve i d ++ snapshotExternalAux resolve (i + 1) ds

/-- `_snapshot_external()`. -/
def snapshotExternal (resolve : Resolver) (devs : List GpuDevice) : List ExternalRow :=
  snapshotExternalAux resolve 0 devs

/-- The mutable value of one `agg` entry: `[mem_sum, util_sum, total]`. -/
structure AccStats where
  memSum : ℚ
  utilSum : ℚ
  total : ℚ
deriving DecidableEq, Repr

/-- First components of an association list (the key view of the dict). -/
def keysOf {K V : Type} (l : List (K × V)) : List K := l.map Prod.fst

/-- Association-list lookup, as Python dict indexing (`none` = `KeyError`). -/
def lookupK {K V : Type} [DecidableEq K] (l : List (K × V)) (key : K) : Option V :=
  match l with
  | [] => none
  | kv :: rest => if kv.1 = key then some kv.2 else lookupK rest key

/-- One `stats = agg.setdefault(key, [0.0, 0.0, total]); stats[0] += mem;
stats[1] += util` step: an absent key is appended seeded with this
values of this observation; a present key has `mem`/`util` added and its stored
`total` left untouched. -/
def aggSetStep {K : Type} [DecidableEq K] :
    List (K × AccStats) → K → ℚ → Int → ℚ → List (K × AccStats)
  | [], key, mem, util, total => [(key, ⟨mem, (util : ℚ), total⟩)]
  | (k, s) :: rest, key, mem, util, total =>
    if k = key then (k, ⟨s.memSum + mem, s.utilSum + util, s.total⟩) :: rest
    else (k, s) :: aggSetStep rest key mem util total

/-- One `count[key] = count.get(key, 0) + 1` step. -/
def bump {K : Type} [DecidableEq K] : List (K × ℕ) → K → List (K × ℕ)
  | [], key => [(key, 1)]
  | (k, c) :: rest, key =>
    if k = key then (k, c + 1) :: rest else (k, c) :: bump rest key

/-- The module-level mutable aggregation state: the `agg` and `count`
dicts. -/
structure AggState (K : Type) where
  agg : List (K × AccStats)
  count : List (K × ℕ)
deriving DecidableEq, Repr

/-- Both dicts start empty. -/
def AggState.empty (K : Type) : AggState K := ⟨[], []⟩

/-- Accumulating one observation updates `agg` and `count` together. -/
def accumObs {K : Type} [DecidableEq K] (st : AggState K) (key : K)
    (mem : ℚ) (util : Int) (total : ℚ) : AggState K :=
  ⟨aggSetStep st.agg key mem util total, bump st.count key⟩

/-- The per-snapshot accumulation loop, generic in the row type and the
key/field projections. -/
def accumSnap {R K : Type} [DecidableEq K] (key : R → K) (mem : R → ℚ)
    (util : R → Int) (total : R → ℚ) (st : AggState K) (snap : List R) : AggState K :=
  snap.foldl (fun st r => accumObs st (key r) (mem r) (util r) (total r)) st

/-- `key = (user, gpu_id)` of the internal branch. -/
abbrev IKey : Type := String × ℕ

/-- `key = (pid, cmd, user, gpu_id)` of the external branch. -/
abbrev EKey : Type := Int × String × String × ℕ

/-- Aggregation key of an internal row. -/
def iKey (r : InternalRow) : IKey := (r.user, r.gpu)

/-- Aggregation key of an external row. -/
def eKey (r : ExternalRow) : EKey := (r.pid, r.cmd, r.user, r.gpu)

/-- The `for user, gpu_id, mem, total, util in snap` accumulation loop. -/
def accumSnapInternal (st : AggState IKey) (snap : List InternalRow) : AggState IKey :=
  accumSnap iKey InternalRow.mem InternalRow.util InternalRow.total st snap

/-- The `for pid, cmd, user, gpu_id, mem, total, util in snap` accumulation
loop. -/
def accumSnapExternal (st : AggState EKey) (snap : List ExternalRow) : AggState EKey :=
  accumSnap eKey ExternalRow.mem ExternalRow.util ExternalRow.total st snap

/-- Times at which the `while True` loop samples, under an injected clock
where sampling is instantaneous and each `time.sleep(POLL_INTERVAL)`
advances the clock by exactly `interval`.  The loop samples at `t`, then
breaks when `time.time() >= end_time or LOG_DURATION <= 0`, else sleeps
and repeats; `fuel` bounds the recursion and is irrelevant whenever it
exceeds the number of iterations the break condition allows. -/
def pollTimes (dur interval endT : Int) : ℕ → Int → List Int
  | 0, t => [t]
  | fuel + 1, t =>
    if endT ≤ t ∨ dur ≤ 0 then [t]
    else t :: pollTimes dur interval endT fuel (t + interval)

/-- The sampling loop of the internal branch: `end_time = time.time() +
max(LOG_DURATION, 0)`, then snapshot-and-accumulate at each poll time. -/
def runInternal (dur interval : Int) (fuel : ℕ) (t0 : Int)
    (snapAt : Int → List InternalRow) : AggState IKey :=
  (pollTimes dur interval (t0 + max dur 0) fuel t0).foldl
    (fun st t => accumSnapInternal st (snapAt t)) (AggState.empty IKey)

/-- The sampling loop of the external branch. -/
def runExternal (dur interval : Int) (fuel : ℕ) (t0 : Int)
    (snapAt : Int → List ExternalRow) : AggState EKey :=
  (pollTimes dur interval (t0 + max dur 0) fuel t0).foldl
    (fun st t => accumSnapExternal st (snapAt t)) (AggState.empty EKey)

/-- One finalized internal row:
`[ts_range, host, user, gpu_id, round(mem_sum / c, 3), total_gb, round(util_sum / c, 1)]`. -/
structure SummaryRowInternal where
  ts : String
  host : String
  user : String
  gpu : ℕ
  meanMem : ℚ
  total : ℚ
  meanUtil : ℚ
deriving DecidableEq, Repr

/-- One finalized external row. -/
structure SummaryRowExternal where
  ts : String
  host : String
  pid : Int
  cmd : String
  user : String
  gpu : ℕ
  meanMem : ℚ
  total : ℚ
  meanUtil : ℚ
deriving DecidableEq, Repr

/-- The internal finalize loop over `agg.items()`, with
`c = count[(user, gpu_id)]`. -/
def finalizeInternal (ts hostn : String) (st : AggState IKey) : List SummaryRowInternal :=
  st.agg.map (fun ks =>
    let c : ℕ := (lookupK st.count ks.1).getD 0
    ⟨ts, hostn, ks.1.1, ks.1.2, pyRound (ks.2.memSum / c) 3, ks.2.total,
      pyRound (ks.2.utilSum / c) 1⟩)

/-- The external finalize loop over `agg.items()`. -/
def finalizeExternal (ts hostn : String) (st : AggState EKey) : List SummaryRowExternal :=
  st.agg.map (fun ks =>
    let c : ℕ := (lookupK st.count ks.1).getD 0
    ⟨ts, hostn, ks.1.1, ks.1.2.1, ks.1.2.2.1, ks.1.2.2.2, pyRound (ks.2.memSum / c) 3,
      ks.2.total, pyRound (ks.2.utilSum / c) 1⟩)

/-- The guarded sheet write `if rows: ws.update(...)`: number of calls made
to the sink's write for a finalized row list. -/
def sheetUpdateCalls {α : Type} (rows : List α) : ℕ :=
  if rows.isEmpty then 0 else 1

/-- Recognises the synthetic aggregated-mode IDLE observation of device
`i`: the `usage_by_user["IDLE"] = 0.0` substitution row. -/
def isIdleInternal (i : ℕ) (r : InternalRow) : Bool :=
  decide (r.gpu = i ∧ r.user = "IDLE")

/-- Recognises the synthetic detailed-mode IDLE observation of device
`i`: the `(0, "IDLE", "-", i, 0.0, total_gb, util)` row. -/
def isIdleExternal (i : ℕ) (r : ExternalRow) : Bool :=
  decide (r.gpu = i ∧ r.pid = 0 ∧ r.cmd = "IDLE" ∧ r.user = "-")

/-- Test resolver for the two-process scenario: every pid belongs to user
"alice" with an empty command line. -/
def aliceResolve : Resolver := fun _ => some ⟨"alice", []⟩

/-- Test device for the two-process scenario: utilization 50, 16 GiB of
total memory, and two resident processes using 1.0 GiB (pid 1) and
1.5 GiB (pid 2). -/
def aliceDev : GpuDevice :=
  ⟨50, 17179869184, some [⟨1, 1073741824⟩, ⟨2, 1610612736⟩]⟩

theorem roundHalfEven_intCast (z : ℤ) : roundHalfEven (z : ℚ) = z := by
  unfold roundHalfEven
  rw [Int.floor_intCast]
  norm_num

theorem pyRound_three_eq_self {q : ℚ} (z : ℤ) (hz : q * 1000 = (z : ℚ)) :
    pyRound q 3 = q := by
  have h3 : ((10 : ℚ) ^ 3) = 1000 := by norm_num
  unfold pyRound
  rw [h3, hz, roundHalfEven_intCast, ← hz]
  field_simp

theorem threeDec_pyRound (q : ℚ) : ThreeDec (pyRound q 3) := by
  refine ⟨roundHalfEven (q * 10 ^ 3), ?_⟩
  unfold pyRound
  norm_num

theorem threeDec_zero : ThreeDec 0 := ⟨0, by norm_num⟩

theorem ThreeDec.add {a b : ℚ} (ha : ThreeDec a) (hb : ThreeDec b) :
    ThreeDec (a + b) := by
  obtain ⟨x, hx⟩ := ha
  obtain ⟨y, hy⟩ := hb
  refine ⟨x + y, ?_⟩
  rw [hx, hy]
  push_cast
  ring

theorem ThreeDec.pyRound_eq {q : ℚ} (h : ThreeDec q) : pyRound q 3 = q := by
  obtain ⟨z, hz⟩ := h
  refine pyRound_three_eq_self z ?_
  rw [hz]
  field_simp

theorem pyRound_one_intCast (z : ℤ) : pyRound (z : ℚ) 1 = z := by
  have h : ((z : ℚ)) * 10 ^ 1 = ((10 * z : ℤ) : ℚ) := by push_cast; ring
  unfold pyRound
  rw [h, roundHalfEven_intCast]
  push_cast
  ring

theorem threeDec_memGb (bytes : Int) : ThreeDec (memGb bytes) := threeDec_pyRound _

theorem addUsage_ne_nil (l : List (String × ℚ)) (u : String) (m : ℚ) :
    addUsage l u m ≠ [] := by
  cases l with
  | nil => simp [addUsage]
  | cons kv rest =>
    obtain ⟨k, v⟩ := kv
    by_cases h : k = u <;> simp [addUsage, h]

theorem keysOf_addUsage (l : List (String × ℚ)) (u : String) (m : ℚ) :
    keysOf (addUsage l u m) =
      if u ∈ keysOf l then keysOf l else keysOf l ++ [u] := by
  induction l generalizing m with
  | nil => simp [addUsage, keysOf]
  | cons kv rest ih =>
    obtain ⟨k, v⟩ := kv
    by_cases h : k = u
    · subst h
      simp [addUsage, keysOf]
    · simp only [addUsage, if_neg h, keysOf, List.map_cons] at ih ⊢
      rw [ih m]
      by_cases hm : u ∈ List.map Prod.fst rest
      · simp [hm, Ne.symm h]
      · simp [hm, Ne.symm h]

theorem mem_keys_addUsage {l : List (String × ℚ)} {u k : String} {m : ℚ} :
    k ∈ keysOf (addUsage l u m) ↔ k ∈ keysOf l ∨ k = u := by
  rw [keysOf_addUsage]
  by_cases h : u ∈ keysOf l
  · simp only [if_pos h]
    constructor
    · exact fun hk => Or.inl hk
    · rintro (hk | rfl)
      · exact hk
      · exact h
  · simp [if_neg h]

theorem nodup_keys_addUsage {l : List (String × ℚ)} (u : String) (m : ℚ)
    (h : (keysOf l).Nodup) : (keysOf (addUsage l u m)).Nodup := by
  rw [keysOf_addUsage]
  by_cases hm : u ∈ keysOf l
  · simpa [hm] using h
  · simp only [if_neg hm]
    exact List.Nodup.append h (List.nodup_singleton u) (by simpa using hm)

theorem usage_fold_ne_nil (resolve : Resolver) (procs : List ProcInfo)
    (l : List (String × ℚ)) (hl : l ≠ []) :
    procs.foldl (fun l p => addUsage l (userOf resolve p.pid) (memGb p.usedGpuMemory)) l
      ≠ [] := by
  induction procs generalizing l with
  | nil => simpa
  | cons p rest ih => exact ih _ (addUsage_ne_nil _ _ _)

theorem usageByUser_ne_nil (resolve : Resolver) {procs : List ProcInfo}
    (h : procs ≠ []) : usageByUser resolve procs ≠ [] := by
  cases procs with
  | nil => exact absurd rfl h
  | cons p rest =>
    unfold usageByUser
    simp only [List.foldl_cons]
    exact usage_fold_ne_nil _ _ _ (addUsage_ne_nil _ _ _)

theorem mem_keys_usage_fold {resolve : Resolver} {procs : List ProcInfo}
    {l : List (String × ℚ)} {k : String} :
    k ∈ keysOf (procs.foldl
        (fun l p => addUsage l (userOf resolve p.pid) (memGb p.usedGpuMemory)) l) ↔
      k ∈ keysOf l ∨ ∃ p ∈ procs, userOf resolve p.pid = k := by
  induction procs generalizing l with
  | nil => simp
  | cons p rest ih =>
    simp only [List.foldl_cons, ih, mem_keys_addUsage, List.mem_cons]
    constructor
    · rintro ((hk | rfl) | ⟨q, hq, hqk⟩)
      · exact Or.inl hk
      · exact Or.inr ⟨p, Or.inl rfl, rfl⟩
      · exact Or.inr ⟨q, Or.inr hq, hqk⟩
    · rintro (hk | ⟨q, (rfl | hq), hqk⟩)
      · exact Or.inl (Or.inl hk)
      · exact Or.inl (Or.inr hqk.symm)
      · exact Or.inr ⟨q, hq, hqk⟩

theorem mem_keys_usageByUser {resolve : Resolver} {procs : List ProcInfo} {k : String} :
    k ∈ keysOf (usageByUser resolve procs) ↔ ∃ p ∈ procs, userOf resolve p.pid = k := by
  unfold usageByUser
  rw [mem_keys_usage_fold]
  simp [keysOf]

theorem nodup_keys_usageByUser (resolve : Resolver) (procs : List ProcInfo) :
    (keysOf (usageByUser resolve procs)).Nodup := by
  unfold usageByUser
  have : ∀ l : List (String × ℚ), (keysOf l).Nodup →
      (keysOf (procs.foldl
        (fun l p => addUsage l (userOf resolve p.pid) (memGb p.usedGpuMemory)) l)).Nodup := by
    induction procs with
    | nil => exact fun l hl => hl
    | cons p rest ih =>
      intro l hl
      exact ih _ (nodup_keys_addUsage _ _ hl)
  exact this [] (by simp [keysOf])

theorem threeDec_addUsage {l : List (String × ℚ)} {u : String} {m : ℚ}
    (hl : ∀ um ∈ l, ThreeDec um.2) (hm : ThreeDec m) :
    ∀ um ∈ addUsage l u m, ThreeDec um.2 := by
  induction l with
  | nil =>
    intro um hum
    simp only [addUsage, List.mem_singleton] at hum
    subst hum
    exact hm
  | cons kv rest ih =>
    obtain ⟨k, v⟩ := kv
    by_cases h : k = u
    · subst h
      intro um hum
      simp only [addUsage, if_pos rfl] at hum
      rcases List.mem_cons.mp hum with h1 | hum
      · rw [h1]
        exact ThreeDec.add (hl (k, v) (by simp)) hm
      · exact hl um (List.mem_cons_of_mem _ hum)
    · intro um hum
      simp only [addUsage, if_neg h, List.mem_cons] at hum
      rcases hum with rfl | hum
      · exact hl (k, v) (by simp)
      · exact ih (fun x hx => hl x (List.mem_cons_of_mem _ hx)) um hum

theorem mem_keysOf_of_mem {K V : Type} {l : List (K × V)} {k : K} {v : V}
    (h : (k, v) ∈ l) : k ∈ keysOf l := by
  simp only [keysOf, List.mem_map]
  exact ⟨(k, v), h, rfl⟩

theorem exists_lookupK_of_mem_keys {K V : Type} [DecidableEq K] {l : List (K × V)} {k : K}
    (h : k ∈ keysOf l) : ∃ v, lookupK l k = some v := by
  induction l with
  | nil => simp [keysOf] at h
  | cons kv rest ih =>
    obtain ⟨k', v'⟩ := kv
    by_cases hk : k' = k
    · exact ⟨v', by simp [lookupK, hk]⟩
    · simp only [keysOf, List.map_cons, List.mem_cons] at h
      rcases h with rfl | h
      · exact absurd rfl hk
      · obtain ⟨v, hv⟩ := ih h
        exact ⟨v, by simp [lookupK, hk, hv]⟩

theorem mem_of_lookupK_eq_some {K V : Type} [DecidableEq K] {al : List (K × V)} {k0 : K}
    {v0 : V} (hfound : lookupK al k0 = some v0) : (k0, v0) ∈ al := by
  induction al with
  | cons kv rest ih =>
    obtain ⟨k', v'⟩ := kv
    by_cases hk : k' = k0
    · subst hk
      have h' : v' = v0 := by simpa [lookupK] using hfound
      subst h'
      exact List.mem_cons_self _ _
    · simp only [lookupK, if_neg hk] at hfound
      exact List.mem_cons_of_mem _ (ih hfound)
  | nil => exact absurd hfound (by simp [lookupK])

theorem lookupK_eq_some_of_mem_nodup {K V : Type} [DecidableEq K] {al : List (K × V)}
    {k0 : K} {v0 : V} (hnd : (keysOf al).Nodup) (hmem : (k0, v0) ∈ al) :
    lookupK al k0 = some v0 := by
  induction al with
  | nil => exact absurd hmem (by simp)
  | cons kv rest ih =>
    obtain ⟨k', v'⟩ := kv
    simp only [keysOf, List.map_cons, List.nodup_cons] at hnd
    rcases List.mem_cons.mp hmem with h1 | h1
    · injection h1 with hk hv
      subst hk
      subst hv
      simp [lookupK]
    · have hk : k' ≠ k0 := by
        intro hkk
        subst hkk
        exact hnd.1 (mem_keysOf_of_mem h1)
      simp only [lookupK, if_neg hk]
      exact ih hnd.2 h1

theorem lookupK_getD_addUsage (l : List (String × ℚ)) (u k : String) (m : ℚ) :
    (lookupK (addUsage l u m) k).getD 0 =
      (lookupK l k).getD 0 + if k = u then m else 0 := by
  induction l with
  | nil =>
    by_cases hk : k = u
    · subst hk
      simp [addUsage, lookupK]
    · simp [addUsage, lookupK, hk, Ne.symm hk]
  | cons kv rest ih =>
    obtain ⟨k', v'⟩ := kv
    by_cases h1 : k' = u
    · subst h1
      by_cases h2 : k' = k
      · subst h2
        simp [addUsage, lookupK]
      · have h3 : ¬k = k' := fun h => h2 h.symm
        simp [addUsage, lookupK, h2, h3]
    · by_cases h2 : k' = k
      · subst h2
        simp [addUsage, h1, lookupK]
      · simp [addUsage, h1, lookupK, h2, ih]

theorem lookupK_getD_usageByUser (resolve : Resolver) (procs : List ProcInfo) (u : String) :
    (lookupK (usageByUser resolve procs) u).getD 0 =
      ((procs.filter (fun p => decide (userOf resolve p.pid = u))).map
        (fun p => memGb p.usedGpuMemory)).sum := by
  unfold usageByUser
  have main : ∀ l : List (String × ℚ),
      (lookupK (procs.foldl
          (fun l p => addUsage l (userOf resolve p.pid) (memGb p.usedGpuMemory)) l) u).getD 0
        = (lookupK l u).getD 0 +
          ((procs.filter (fun p => decide (userOf resolve p.pid = u))).map
            (fun p => memGb p.usedGpuMemory)).sum := by
    induction procs with
    | nil => simp
    | cons p rest ih =>
      intro l
      simp only [List.foldl_cons]
      by_cases hp : userOf resolve p.pid = u
      · rw [List.filter_cons_of_pos (by simpa using hp), ih, lookupK_getD_addUsage,
          if_pos hp.symm, List.map_cons, List.sum_cons]
        ring
      · rw [List.filter_cons_of_neg (by simpa using hp), ih, lookupK_getD_addUsage,
          if_neg (fun h : u = userOf resolve p.pid => hp h.symm)]
        ring
  rw [main []]
  simp [lookupK]

theorem threeDec_usageByUser (resolve : Resolver) (procs : List ProcInfo) :
    ∀ um ∈ usageByUser resolve procs, ThreeDec um.2 := by
  unfold usageByUser
  have : ∀ l : List (String × ℚ), (∀ um ∈ l, ThreeDec um.2) →
      ∀ um ∈ procs.foldl
        (fun l p => addUsage l (userOf resolve p.pid) (memGb p.usedGpuMemory)) l,
        ThreeDec um.2 := by
    induction procs with
    | nil => exact fun l hl => hl
    | cons p rest ih =>
      intro l hl
      exact ih _ (threeDec_addUsage hl (threeDec_memGb _))
  exact this [] (by simp)

theorem keysOf_aggSetStep {K : Type} [DecidableEq K] (l : List (K × AccStats))
    (key : K) (m : ℚ) (u : Int) (t : ℚ) :
    keysOf (aggSetStep l key m u t) =
      if key ∈ keysOf l then keysOf l else keysOf l ++ [key] := by
  induction l with
  | nil => simp [aggSetStep, keysOf]
  | cons kv rest ih =>
    obtain ⟨k, s⟩ := kv
    by_cases h : k = key
    · subst h
      simp [aggSetStep, keysOf]
    · simp only [aggSetStep, if_neg h, keysOf, List.map_cons] at ih ⊢
      rw [ih]
      by_cases hm : key ∈ List.map Prod.fst rest
      · simp [hm, Ne.symm h]
      · simp [hm, Ne.symm h]

theorem aggSetStep_of_not_mem {K : Type} [DecidableEq K] {l : List (K × AccStats)}
    {key : K} (h : key ∉ keysOf l) (m : ℚ) (u : Int) (t : ℚ) :
    aggSetStep l key m u t = l ++ [(key, ⟨m, (u : ℚ), t⟩)] := by
  induction l with
  | nil => simp [aggSetStep]
  | cons kv rest ih =>
    obtain ⟨k, s⟩ := kv
    simp only [keysOf, List.map_cons, List.mem_cons] at h
    push_neg at h
    simp only [aggSetStep, if_neg (fun hh : k = key => h.1 hh.symm), List.cons_append,
      List.cons.injEq, true_and]
    exact ih h.2

theorem lookupK_aggSetStep_self {K : Type} [DecidableEq K] (l : List (K × AccStats))
    (key : K) (m : ℚ) (u : Int) (t : ℚ) :
    lookupK (aggSetStep l key m u t) key =
      some (match lookupK l key with
            | some s => ⟨s.memSum + m, s.utilSum + u, s.total⟩
            | none => ⟨m, (u : ℚ), t⟩) := by
  induction l with
  | nil => simp [aggSetStep, lookupK]
  | cons kv rest ih =>
    obtain ⟨k, s⟩ := kv
    by_cases h : k = key
    · subst h
      simp [aggSetStep, lookupK]
    · simp [aggSetStep, lookupK, h, ih]

theorem lookupK_aggSetStep_other {K : Type} [DecidableEq K] (l : List (K × AccStats))
    {key k : K} (hk : k ≠ key) (m : ℚ) (u : Int) (t : ℚ) :
    lookupK (aggSetStep l key m u t) k = lookupK l k := by
  induction l with
  | nil => simp [aggSetStep, lookupK, Ne.symm hk]
  | cons kv rest ih =>
    obtain ⟨k', s⟩ := kv
    by_cases h : k' = key
    · subst h
      have h2 : ¬k' = k := fun hh => hk hh.symm
      simp [aggSetStep, lookupK, h2]
    · simp [aggSetStep, lookupK, h, ih]

theorem keysOf_bump {K : Type} [DecidableEq K] (l : List (K × ℕ)) (key : K) :
    keysOf (bump l key) =
      if key ∈ keysOf l then keysOf l else keysOf l ++ [key] := by
  induction l with
  | nil => simp [bump, keysOf]
  | cons kv rest ih =>
    obtain ⟨k, c⟩ := kv
    by_cases h : k = key
    · subst h
      simp [bump, keysOf]
    · simp only [bump, if_neg h, keysOf, List.map_cons] at ih ⊢
      rw [ih]
      by_cases hm : key ∈ List.map Prod.fst rest
      · simp [hm, Ne.symm h]
      · simp [hm, Ne.symm h]

theorem bump_of_not_mem {K : Type} [DecidableEq K] {l : List (K × ℕ)} {key : K}
    (h : key ∉ keysOf l) : bump l key = l ++ [(key, 1)] := by
  induction l with
  | nil => simp [bump]
  | cons kv rest ih =>
    obtain ⟨k, c⟩ := kv
    simp only [keysOf, List.map_cons, List.mem_cons] at h
    push_neg at h
    simp only [bump, if_neg (fun hh : k = key => h.1 hh.symm), List.cons_append,
      List.cons.injEq, true_and]
    exact ih h.2

theorem lookupK_getD_bump {K : Type} [DecidableEq K] (l : List (K × ℕ)) (key k : K) :
    (lookupK (bump l key) k).getD 0 =
      (lookupK l k).getD 0 + if k = key then 1 else 0 := by
  induction l with
  | nil =>
    by_cases hk : k = key
    · subst hk
      simp [bump, lookupK]
    · simp [bump, lookupK, hk, Ne.symm hk]
  | cons kv rest ih =>
    obtain ⟨k', c⟩ := kv
    by_cases h1 : k' = key
    · subst h1
      by_cases h2 : k' = k
      · subst h2
        simp [bump, lookupK]
      · have h3 : ¬k = k' := fun h => h2 h.symm
        simp [bump, lookupK, h2, h3]
    · by_cases h2 : k' = k
      · subst h2
        simp [bump, h1, lookupK]
      · simp [bump, h1, lookupK, h2, ih]

theorem bump_pos {K : Type} [DecidableEq K] {l : List (K × ℕ)}
    (hl : ∀ kc ∈ l, 1 ≤ kc.2) (key : K) : ∀ kc ∈ bump l key, 1 ≤ kc.2 := by
  induction l with
  | nil =>
    intro kc hkc
    simp only [bump, List.mem_singleton] at hkc
    subst hkc
    exact le_refl 1
  | cons kv rest ih =>
    obtain ⟨k, c⟩ := kv
    by_cases h : k = key
    · subst h
      intro kc hkc
      simp only [bump, if_pos rfl] at hkc
      rcases List.mem_cons.mp hkc with h1 | h1
      · rw [h1]
        exact Nat.le_add_left 1 c
      · exact hl kc (List.mem_cons_of_mem _ h1)
    · intro kc hkc
      simp only [bump, if_neg h] at hkc
      rcases List.mem_cons.mp hkc with h1 | h1
      · rw [h1]
        exact hl (k, c) (by simp)
      · exact ih (fun x hx => hl x (List.mem_cons_of_mem _ hx)) kc h1

theorem mem_keys_bump {K : Type} [DecidableEq K] {l : List (K × ℕ)} {key k : K} :
    k ∈ keysOf (bump l key) ↔ k ∈ keysOf l ∨ k = key := by
  rw [keysOf_bump]
  by_cases h : key ∈ keysOf l
  · simp only [if_pos h]
    constructor
    · exact fun hk => Or.inl hk
    · rintro (hk | rfl)
      · exact hk
      · exact h
  · simp [if_neg h]

theorem accumSnap_keys_eq {R K : Type} [DecidableEq K] (key : R → K) (mem : R → ℚ)
    (util : R → Int) (total : R → ℚ) (snap : List R) :
    ∀ st : AggState K, keysOf st.agg = keysOf st.count →
      keysOf (accumSnap key mem util total st snap).agg =
        keysOf (accumSnap key mem util total st snap).count := by
  induction snap with
  | nil => exact fun st h => h
  | cons r rest ih =>
    intro st h
    refine ih _ ?_
    simp only [accumObs, keysOf_aggSetStep, keysOf_bump, h]

theorem accumSnap_count_pos {R K : Type} [DecidableEq K] (key : R → K) (mem : R → ℚ)
    (util : R → Int) (total : R → ℚ) (snap : List R) :
    ∀ st : AggState K, (∀ kc ∈ st.count, 1 ≤ kc.2) →
      ∀ kc ∈ (accumSnap key mem util total st snap).count, 1 ≤ kc.2 := by
  induction snap with
  | nil => exact fun st h => h
  | cons r rest ih =>
    intro st h
    exact ih _ (bump_pos h _)

theorem lookupK_getD_count_accumSnap {R K : Type} [DecidableEq K] (key : R → K)
    (mem : R → ℚ) (util : R → Int) (total : R → ℚ) (snap : List R) (k : K) :
    ∀ st : AggState K,
      (lookupK (accumSnap key mem util total st snap).count k).getD 0 =
        (lookupK st.count k).getD 0 + snap.countP (fun r => decide (key r = k)) := by
  induction snap with
  | nil => simp [accumSnap]
  | cons r rest ih =>
    intro st
    have step : accumSnap key mem util total st (r :: rest) =
        accumSnap key mem util total (accumObs st (key r) (mem r) (util r) (total r)) rest := by
      simp [accumSnap]
    rw [step, ih]
    simp only [accumObs, lookupK_getD_bump, List.countP_cons]
    by_cases hk : key r = k
    · have h1 : k = key r := hk.symm
      rw [if_pos h1, decide_eq_true hk, if_pos rfl]
      omega
    · have h1 : ¬k = key r := fun h => hk h.symm
      rw [if_neg h1, decide_eq_false hk]
      simp only [Bool.false_eq_true, if_false]
      omega

theorem mem_keys_count_accumSnap {R K : Type} [DecidableEq K] (key : R → K)
    (mem : R → ℚ) (util : R → Int) (total : R → ℚ) (snap : List R) (k : K) :
    ∀ st : AggState K,
      (k ∈ keysOf (accumSnap key mem util total st snap).count ↔
        k ∈ keysOf st.count ∨ ∃ r ∈ snap, key r = k) := by
  induction snap with
  | nil => simp [accumSnap]
  | cons r rest ih =>
    intro st
    have step : accumSnap key mem util total st (r :: rest) =
        accumSnap key mem util total (accumObs st (key r) (mem r) (util r) (total r)) rest := by
      simp [accumSnap]
    rw [step, ih]
    simp only [accumObs, mem_keys_bump, List.mem_cons]
    constructor
    · rintro ((hk | rfl) | ⟨q, hq, hqk⟩)
      · exact Or.inl hk
      · exact Or.inr ⟨r, Or.inl rfl, rfl⟩
      · exact Or.inr ⟨q, Or.inr hq, hqk⟩
    · rintro (hk | ⟨q, (rfl | hq), hqk⟩)
      · exact Or.inl (Or.inl hk)
      · exact Or.inl (Or.inr hqk.symm)
      · exact Or.inr ⟨q, hq, hqk⟩

theorem accumSnap_fresh {R K : Type} [DecidableEq K] (key : R → K) (mem : R → ℚ)
    (util : R → Int) (total : R → ℚ) :
    ∀ (snap : List R) (st : AggState K), (snap.map key).Nodup →
      (∀ r ∈ snap, key r ∉ keysOf st.agg) → (∀ r ∈ snap, key r ∉ keysOf st.count) →
      (accumSnap key mem util total st snap).agg =
          st.agg ++ snap.map (fun r => (key r, ⟨mem r, (util r : ℚ), total r⟩)) ∧
        (accumSnap key mem util total st snap).count =
          st.count ++ snap.map (fun r => (key r, 1)) := by
  intro snap
  induction snap with
  | nil => simp [accumSnap]
  | cons r rest ih =>
    intro st hnd hagg hcnt
    have step : accumSnap key mem util total st (r :: rest) =
        accumSnap key mem util total (accumObs st (key r) (mem r) (util r) (total r)) rest := by
      simp [accumSnap]
    have hobs_agg : (accumObs st (key r) (mem r) (util r) (total r)).agg =
        st.agg ++ [(key r, ⟨mem r, (util r : ℚ), total r⟩)] :=
      aggSetStep_of_not_mem (hagg r (by simp)) _ _ _
    have hobs_cnt : (accumObs st (key r) (mem r) (util r) (total r)).count =
        st.count ++ [(key r, 1)] :=
      bump_of_not_mem (hcnt r (by simp))
    simp only [List.map_cons, List.nodup_cons] at hnd
    have hfresh_agg : ∀ q ∈ rest, key q ∉ keysOf (accumObs st (key r) (mem r) (util r) (total r)).agg := by
      intro q hq
      rw [hobs_agg]
      simp only [keysOf, List.map_append, List.mem_append, List.map_cons]
      rintro (hk | hk)
      · exact hagg q (List.mem_cons_of_mem _ hq) hk
      · simp only [List.map_nil, List.mem_singleton] at hk
        exact hnd.1 (hk ▸ List.mem_map_of_mem key hq)
    have hfresh_cnt : ∀ q ∈ rest, key q ∉ keysOf (accumObs st (key r) (mem r) (util r) (total r)).count := by
      intro q hq
      rw [hobs_cnt]
      simp only [keysOf, List.map_append, List.mem_append, List.map_cons]
      rintro (hk | hk)
      · exact hcnt q (List.mem_cons_of_mem _ hq) hk
      · simp only [List.map_nil, List.mem_singleton] at hk
        exact hnd.1 (hk ▸ List.mem_map_of_mem key hq)
    obtain ⟨ha, hc⟩ := ih _ hnd.2 hfresh_agg hfresh_cnt
    rw [step]
    constructor
    · rw [ha, hobs_agg, List.append_assoc]
      simp
    · rw [hc, hobs_cnt, List.append_assoc]
      simp

theorem accumSnap_replicate_aux {R K : Type} [DecidableEq K] (key : R → K) (mem : R → ℚ)
    (util : R → Int) (total : R → ℚ) (r : R) :
    ∀ (n : ℕ) (s : AccStats) (c : ℕ),
      accumSnap key mem util total ⟨[(key r, s)], [(key r, c)]⟩ (List.replicate n r) =
        ⟨[(key r, ⟨s.memSum + n * mem r, s.utilSum + n * util r, s.total⟩)],
          [(key r, c + n)]⟩ := by
  intro n
  induction n with
  | zero =>
    intro s c
    obtain ⟨sm, su, stt⟩ := s
    simp [accumSnap]
  | succ n ih =>
    intro s c
    have hrep : List.replicate (n + 1) r = r :: List.replicate n r := rfl
    rw [hrep]
    have step : accumSnap key mem util total ⟨[(key r, s)], [(key r, c)]⟩ (r :: List.replicate n r) =
        accumSnap key mem util total
          (accumObs ⟨[(key r, s)], [(key r, c)]⟩ (key r) (mem r) (util r) (total r))
          (List.replicate n r) := by
      simp [accumSnap]
    have hobs : accumObs (⟨[(key r, s)], [(key r, c)]⟩ : AggState K) (key r) (mem r) (util r) (total r) =
        ⟨[(key r, ⟨s.memSum + mem r, s.utilSum + util r, s.total⟩)], [(key r, c + 1)]⟩ := by
      simp [accumObs, aggSetStep, bump]
    rw [step, hobs, ih]
    have h1 : s.memSum + mem r + n * mem r = s.memSum + (n + 1 : ℕ) * mem r := by
      push_cast
      ring
    have h2 : s.utilSum + (util r : ℚ) + n * util r = s.utilSum + (n + 1 : ℕ) * util r := by
      push_cast
      ring
    have h3 : c + 1 + n = c + (n + 1) := by omega
    rw [h1, h2, h3]

theorem accumSnap_replicate {R K : Type} [DecidableEq K] (key : R → K) (mem : R → ℚ)
    (util : R → Int) (total : R → ℚ) (r : R) (n : ℕ) :
    accumSnap key mem util total (AggState.empty K) (List.replicate (n + 1) r) =
      ⟨[(key r, ⟨(n + 1 : ℕ) * mem r, (n + 1 : ℕ) * util r, total r⟩)], [(key r, n + 1)]⟩ := by
  have hrep : List.replicate (n + 1) r = r :: List.replicate n r := rfl
  rw [hrep]
  have step : accumSnap key mem util total (AggState.empty K) (r :: List.replicate n r) =
      accumSnap key mem util total
        (accumObs (AggState.empty K) (key r) (mem r) (util r) (total r))
        (List.replicate n r) := by
    simp [accumSnap]
  have hobs : accumObs (AggState.empty K) (key r) (mem r) (util r) (total r) =
      ⟨[(key r, ⟨mem r, (util r : ℚ), total r⟩)], [(key r, 1)]⟩ := by
    simp [accumObs, aggSetStep, bump, AggState.empty]
  rw [step, hobs, accumSnap_replicate_aux]
  have h1 : mem r + n * mem r = (n + 1 : ℕ) * mem r := by
    push_cast
    ring
  have h2 : (util r : ℚ) + n * util r = (n + 1 : ℕ) * util r := by
    push_cast
    ring
  have h3 : 1 + n = n + 1 := by omega
  simp only [h1, h2, h3]

theorem gpu_of_mem_deviceRowsInternal {resolve : Resolver} {i : ℕ} {d : GpuDevice}
    {r : InternalRow} (h : r ∈ deviceRowsInternal resolve i d) : r.gpu = i := by
  simp only [deviceRowsInternal, List.mem_map] at h
  obtain ⟨um, _, rfl⟩ := h
  rfl

theorem total_util_of_mem_deviceRowsInternal {resolve : Resolver} {i : ℕ} {d : GpuDevice}
    {r : InternalRow} (h : r ∈ deviceRowsInternal resolve i d) :
    r.total = totalGb d ∧ r.util = d.util := by
  simp only [deviceRowsInternal, List.mem_map] at h
  obtain ⟨um, _, rfl⟩ := h
  exact ⟨rfl, rfl⟩

theorem gpu_ge_of_mem_snapshotInternalAux {resolve : Resolver} :
    ∀ {i0 : ℕ} {devs : List GpuDevice} {r : InternalRow},
      r ∈ snapshotInternalAux resolve i0 devs → i0 ≤ r.gpu := by
  intro i0 devs
  induction devs generalizing i0 with
  | nil => simp [snapshotInternalAux]
  | cons d ds ih =>
    intro r hr
    simp only [snapshotInternalAux, List.mem_append] at hr
    rcases hr with hr | hr
    · exact le_of_eq (gpu_of_mem_deviceRowsInternal hr).symm
    · exact le_trans (Nat.le_succ i0) (ih hr)

theorem countP_snapshotInternalAux (resolve : Resolver) (p : InternalRow → Bool) :
    ∀ (devs : List GpuDevice) (i0 i : ℕ) (dev : GpuDevice),
      devs[i]? = some dev → (∀ r, p r = true → r.gpu = i0 + i) →
      (snapshotInternalAux resolve i0 devs).countP p =
        (deviceRowsInternal resolve (i0 + i) dev).countP p := by
  intro devs
  induction devs with
  | nil => intro i0 i dev h; simp at h
  | cons d ds ih =>
    intro i0 i dev h hp
    cases i with
    | zero =>
      simp only [List.getElem?_cons_zero, Option.some.injEq] at h
      subst h
      simp only [snapshotInternalAux, List.countP_append]
      have hz : (snapshotInternalAux resolve (i0 + 1) ds).countP p = 0 := by
        rw [List.countP_eq_zero]
        intro r hr hpr
        have h1 := hp r hpr
        have h2 := gpu_ge_of_mem_snapshotInternalAux hr
        omega
      rw [hz]
      simp
    | succ j =>
      simp only [List.getElem?_cons_succ] at h
      have hz : (deviceRowsInternal resolve i0 d).countP p = 0 := by
        rw [List.countP_eq_zero]
        intro r hr hpr
        have h1 := hp r hpr
        have h2 := gpu_of_mem_deviceRowsInternal hr
        omega
      have hstep : i0 + 1 + j = i0 + (j + 1) := by omega
      have hih := ih (i0 + 1) j dev h (by rw [hstep]; exact hp)
      simp only [snapshotInternalAux, List.countP_append, hz]
      rw [hih, hstep]
      omega

theorem mem_snapshotInternalAux_of_mem {resolve : Resolver} :
    ∀ (devs : List GpuDevice) (i0 i : ℕ) (dev : GpuDevice) {r : InternalRow},
      devs[i]? = some dev → r ∈ deviceRowsInternal resolve (i0 + i) dev →
      r ∈ snapshotInternalAux resolve i0 devs := by
  intro devs
  induction devs with
  | nil => intro i0 i dev r h; simp at h
  | cons d ds ih =>
    intro i0 i dev r h hr
    cases i with
    | zero =>
      simp only [List.getElem?_cons_zero, Option.some.injEq] at h
      subst h
      simp only [snapshotInternalAux, List.mem_append]
      exact Or.inl hr
    | succ j =>
      simp only [List.getElem?_cons_succ] at h
      simp only [snapshotInternalAux, List.mem_append]
      refine Or.inr (ih (i0 + 1) j dev h ?_)
      have hstep : i0 + 1 + j = i0 + (j + 1) := by omega
      rw [hstep]
      exact hr

theorem deviceRowsInternal_of_empty {resolve : Resolver} {i : ℕ} {d : GpuDevice}
    (h : procList d = []) :
    deviceRowsInternal resolve i d = [⟨"IDLE", i, 0, totalGb d, d.util⟩] := by
  simp [deviceRowsInternal, usageByUser, h]

theorem user_of_mem_deviceRowsInternal {resolve : Resolver} {i : ℕ} {d : GpuDevice}
    {r : InternalRow} (hne : procList d ≠ []) (h : r ∈ deviceRowsInternal resolve i d) :
    ∃ p ∈ procList d, userOf resolve p.pid = r.user := by
  simp only [deviceRowsInternal, List.mem_map] at h
  have hub : ¬(usageByUser resolve (procList d)).isEmpty = true := by
    simpa [List.isEmpty_iff] using usageByUser_ne_nil resolve hne
  rw [if_neg hub] at h
  obtain ⟨um, hum, rfl⟩ := h
  exact mem_keys_usageByUser.mp (mem_keysOf_of_mem hum)

theorem countP_isIdleInternal_of_ne {resolve : Resolver} {i : ℕ} {d : GpuDevice}
    (hres : ∀ pid pr, resolve pid = some pr → pr.username ≠ "IDLE")
    (hne : procList d ≠ []) :
    (deviceRowsInternal resolve i d).countP (isIdleInternal i) = 0 := by
  rw [List.countP_eq_zero]
  intro r hr hpr
  simp only [isIdleInternal, decide_eq_true_eq] at hpr
  obtain ⟨p, hp, hpu⟩ := user_of_mem_deviceRowsInternal hne hr
  unfold userOf at hpu
  cases hre : resolve p.pid with
  | none =>
    rw [hre] at hpu
    rw [hpr.2] at hpu
    exact absurd hpu (by simp)
  | some pr =>
    rw [hre] at hpu
    rw [hpr.2] at hpu
    exact hres p.pid pr hre hpu

theorem countP_isIdleInternal_of_empty {resolve : Resolver} {i : ℕ} {d : GpuDevice}
    (h : procList d = []) :
    (deviceRowsInternal resolve i d).countP (isIdleInternal i) = 1 := by
  rw [deviceRowsInternal_of_empty h]
  simp [isIdleInternal]

theorem gpu_of_mem_deviceRowsExternal {resolve : Resolver} {i : ℕ} {d : GpuDevice}
    {r : ExternalRow} (h : r ∈ deviceRowsExternal resolve i d) : r.gpu = i := by
  simp only [deviceRowsExternal, List.mem_append] at h
  rcases h with h | h
  · by_cases he : (procList d).isEmpty
    · rw [if_pos he, List.mem_singleton] at h
      rw [h]
    · rw [if_neg he] at h
      simp at h
  · simp only [List.mem_map] at h
    obtain ⟨p, _, rfl⟩ := h
    unfold externalProcRow
    cases resolve p.pid <;> rfl

theorem gpu_ge_of_mem_snapshotExternalAux {resolve : Resolver} :
    ∀ {i0 : ℕ} {devs : List GpuDevice} {r : ExternalRow},
      r ∈ snapshotExternalAux resolve i0 devs → i0 ≤ r.gpu := by
  intro i0 devs
  induction devs generalizing i0 with
  | nil => simp [snapshotExternalAux]
  | cons d ds ih =>
    intro r hr
    simp only [snapshotExternalAux, List.mem_append] at hr
    rcases hr with hr | hr
    · exact le_of_eq (gpu_of_mem_deviceRowsExternal hr).symm
    · exact le_trans (Nat.le_succ i0) (ih hr)

theorem countP_snapshotExternalAux (resolve : Resolver) (p : ExternalRow → Bool) :
    ∀ (devs : List GpuDevice) (i0 i : ℕ) (dev : GpuDevice),
      devs[i]? = some dev → (∀ r, p r = true → r.gpu = i0 + i) →
      (snapshotExternalAux resolve i0 devs).countP p =
        (deviceRowsExternal resolve (i0 + i) dev).countP p := by
  intro devs
  induction devs with
  | nil => intro i0 i dev h; simp at h
  | cons d ds ih =>
    intro i0 i dev h hp
    cases i with
    | zero =>
      simp only [List.getElem?_cons_zero, Option.some.injEq] at h
      subst h
      simp only [snapshotExternalAux, List.countP_append]
      have hz : (snapshotExternalAux resolve (i0 + 1) ds).countP p = 0 := by
        rw [List.countP_eq_zero]
        intro r hr hpr
        have h1 := hp r hpr
        have h2 := gpu_ge_of_mem_snapshotExternalAux hr
        omega
      rw [hz]
      simp
    | succ j =>
      simp only [List.getElem?_cons_succ] at h
      have hz : (deviceRowsExternal resolve i0 d).countP p = 0 := by
        rw [List.countP_eq_zero]
        intro r hr hpr
        have h1 := hp r hpr
        have h2 := gpu_of_mem_deviceRowsExternal hr
        omega
      have hstep : i0 + 1 + j = i0 + (j + 1) := by omega
      have hih := ih (i0 + 1) j dev h (by rw [hstep]; exact hp)
      simp only [snapshotExternalAux, List.countP_append, hz]
      rw [hih, hstep]
      omega

theorem mem_snapshotExternalAux_of_mem {resolve : Resolver} :
    ∀ (devs : List GpuDevice) (i0 i : ℕ) (dev : GpuDevice) {r : ExternalRow},
      devs[i]? = some dev → r ∈ deviceRowsExternal resolve (i0 + i) dev →
      r ∈ snapshotExternalAux resolve i0 devs := by
  intro devs
  induction devs with
  | nil => intro i0 i dev r h; simp at h
  | cons d ds ih =>
    intro i0 i dev r h hr
    cases i with
    | zero =>
      simp only [List.getElem?_cons_zero, Option.some.injEq] at h
      subst h
      simp only [snapshotExternalAux, List.mem_append]
      exact Or.inl hr
    | succ j =>
      simp only [List.getElem?_cons_succ] at h
      simp only [snapshotExternalAux, List.mem_append]
      refine Or.inr (ih (i0 + 1) j dev h ?_)
      have hstep : i0 + 1 + j = i0 + (j + 1) := by omega
      rw [hstep]
      exact hr

theorem deviceRowsExternal_of_empty {resolve : Resolver} {i : ℕ} {d : GpuDevice}
    (h : procList d = []) :
    deviceRowsExternal resolve i d = [⟨0, "IDLE", "-", i, 0, totalGb d, d.util⟩] := by
  simp [deviceRowsExternal, h]

theorem countP_isIdleExternal_of_empty {resolve : Resolver} {i : ℕ} {d : GpuDevice}
    (h : procList d = []) :
    (deviceRowsExternal resolve i d).countP (isIdleExternal i) = 1 := by
  rw [deviceRowsExternal_of_empty h]
  simp [isIdleExternal]

theorem countP_isIdleExternal_of_ne {resolve : Resolver} {i : ℕ} {d : GpuDevice}
    (hpid : ∀ p ∈ procList d, p.pid ≠ 0) (hne : procList d ≠ []) :
    (deviceRowsExternal resolve i d).countP (isIdleExternal i) = 0 := by
  rw [List.countP_eq_zero]
  intro r hr hpr
  simp only [isIdleExternal, decide_eq_true_eq] at hpr
  simp only [deviceRowsExternal, List.mem_append] at hr
  have he : ¬(procList d).isEmpty = true := by simpa [List.isEmpty_iff] using hne
  rcases hr with hr | hr
  · rw [if_neg he] at hr
    simp at hr
  · simp only [List.mem_map] at hr
    obtain ⟨p, hp, rfl⟩ := hr
    have hp0 : (externalProcRow resolve i d p).pid = p.pid := by
      unfold externalProcRow
      cases resolve p.pid <;> rfl
    rw [hp0] at hpr
    exact hpid p hp hpr.2.1

theorem nodup_keys_deviceRowsInternal (resolve : Resolver) (i : ℕ) (d : GpuDevice) :
    ((deviceRowsInternal resolve i d).map iKey).Nodup := by
  by_cases he : (usageByUser resolve (procList d)).isEmpty
  · simp [deviceRowsInternal, he, iKey]
  · simp only [deviceRowsInternal, if_neg he]
    rw [List.map_map]
    have hcomp : (iKey ∘ fun um : String × ℚ => (⟨um.1, i, um.2, totalGb d, d.util⟩ : InternalRow))
        = (fun u => (u, i)) ∘ Prod.fst := rfl
    rw [hcomp, ← List.map_map]
    refine List.Nodup.map ?_ (nodup_keys_usageByUser resolve (procList d))
    intro a b hab
    exact (Prod.mk.injEq _ _ _ _ ▸ hab).1

theorem nodup_keys_snapshotInternalAux (resolve : Resolver) :
    ∀ (devs : List GpuDevice) (i0 : ℕ),
      ((snapshotInternalAux resolve i0 devs).map iKey).Nodup := by
  intro devs
  induction devs with
  | nil => simp [snapshotInternalAux]
  | cons d ds ih =>
    intro i0
    simp only [snapshotInternalAux, List.map_append]
    rw [List.nodup_append]
    refine ⟨nodup_keys_deviceRowsInternal resolve i0 d, ih (i0 + 1), ?_⟩
    intro a ha hb
    simp only [List.mem_map] at ha hb
    obtain ⟨r1, hr1, rfl⟩ := ha
    obtain ⟨r2, hr2, hk⟩ := hb
    have h1 : r1.gpu = i0 := gpu_of_mem_deviceRowsInternal hr1
    have h2 : i0 + 1 ≤ r2.gpu := gpu_ge_of_mem_snapshotInternalAux hr2
    have h3 : r2.gpu = r1.gpu := congrArg Prod.snd hk
    omega

theorem pid_externalProcRow (resolve : Resolver) (i : ℕ) (d : GpuDevice) (p : ProcInfo) :
    (externalProcRow resolve i d p).pid = p.pid := by
  unfold externalProcRow
  cases resolve p.pid <;> rfl

theorem nodup_keys_deviceRowsExternal (resolve : Resolver) (i : ℕ) {d : GpuDevice}
    (hnd : ((procList d).map ProcInfo.pid).Nodup) :
    ((deviceRowsExternal resolve i d).map eKey).Nodup := by
  unfold deviceRowsExternal
  by_cases he : (procList d).isEmpty
  · have hpl : procList d = [] := List.isEmpty_iff.mp he
    simp [he, hpl]
  · rw [if_neg he, List.nil_append, List.map_map]
    refine List.Nodup.of_map Prod.fst ?_
    rw [List.map_map]
    have hcomp : ∀ p ∈ procList d,
        (Prod.fst ∘ eKey ∘ externalProcRow resolve i d) p = ProcInfo.pid p := by
      intro p _
      simp only [Function.comp_apply, eKey, pid_externalProcRow]
    rw [List.map_congr_left hcomp]
    exact hnd

theorem nodup_keys_snapshotExternalAux (resolve : Resolver) :
    ∀ (devs : List GpuDevice) (i0 : ℕ),
      (∀ d ∈ devs, ((procList d).map ProcInfo.pid).Nodup) →
      ((snapshotExternalAux resolve i0 devs).map eKey).Nodup := by
  intro devs
  induction devs with
  | nil => simp [snapshotExternalAux]
  | cons d ds ih =>
    intro i0 hnd
    simp only [snapshotExternalAux, List.map_append]
    rw [List.nodup_append]
    refine ⟨nodup_keys_deviceRowsExternal resolve i0 (hnd d (by simp)),
      ih (i0 + 1) (fun x hx => hnd x (List.mem_cons_of_mem _ hx)), ?_⟩
    intro a ha hb
    simp only [List.mem_map] at ha hb
    obtain ⟨r1, hr1, rfl⟩ := ha
    obtain ⟨r2, hr2, hk⟩ := hb
    have h1 : r1.gpu = i0 := gpu_of_mem_deviceRowsExternal hr1
    have h2 : i0 + 1 ≤ r2.gpu := gpu_ge_of_mem_snapshotExternalAux hr2
    have h3 : r2.gpu = r1.gpu := by
      have := congrArg (fun x : EKey => x.2.2.2) hk
      simpa [eKey] using this
    omega

theorem threeDec_mem_deviceRowsInternal {resolve : Resolver} {i : ℕ} {d : GpuDevice}
    {r : InternalRow} (h : r ∈ deviceRowsInternal resolve i d) : ThreeDec r.mem := by
  simp only [deviceRowsInternal, List.mem_map] at h
  obtain ⟨um, hum, rfl⟩ := h
  by_cases he : (usageByUser resolve (procList d)).isEmpty
  · rw [if_pos he] at hum
    simp only [List.mem_singleton] at hum
    subst hum
    exact threeDec_zero
  · rw [if_neg he] at hum
    exact threeDec_usageByUser resolve (procList d) um hum

theorem threeDec_mem_snapshotInternalAux {resolve : Resolver} :
    ∀ {devs : List GpuDevice} {i0 : ℕ} {r : InternalRow},
      r ∈ snapshotInternalAux resolve i0 devs → ThreeDec r.mem := by
  intro devs
  induction devs with
  | nil => intro i0 r h; simp [snapshotInternalAux] at h
  | cons d ds ih =>
    intro i0 r h
    simp only [snapshotInternalAux, List.mem_append] at h
    rcases h with h | h
    · exact threeDec_mem_deviceRowsInternal h
    · exact ih h

theorem threeDec_mem_deviceRowsExternal {resolve : Resolver} {i : ℕ} {d : GpuDevice}
    {r : ExternalRow} (h : r ∈ deviceRowsExternal resolve i d) : ThreeDec r.mem := by
  simp only [deviceRowsExternal, List.mem_append] at h
  rcases h with h | h
  · by_cases he : (procList d).isEmpty
    · rw [if_pos he, List.mem_singleton] at h
      subst h
      exact threeDec_zero
    · rw [if_neg he] at h
      simp at h
  · simp only [List.mem_map] at h
    obtain ⟨p, _, rfl⟩ := h
    have hm : (externalProcRow resolve i d p).mem = memGb p.usedGpuMemory := by
      unfold externalProcRow
      cases resolve p.pid <;> rfl
    rw [hm]
    exact threeDec_memGb _

theorem threeDec_mem_snapshotExternalAux {resolve : Resolver} :
    ∀ {devs : List GpuDevice} {i0 : ℕ} {r : ExternalRow},
      r ∈ snapshotExternalAux resolve i0 devs → ThreeDec r.mem := by
  intro devs
  induction devs with
  | nil => intro i0 r h; simp [snapshotExternalAux] at h
  | cons d ds ih =>
    intro i0 r h
    simp only [snapshotExternalAux, List.mem_append] at h
    rcases h with h | h
    · exact threeDec_mem_deviceRowsExternal h
    · exact ih h

theorem lookupK_eq_some_getD_of_mem_keys {K V : Type} [DecidableEq K] {l : List (K × V)}
    {k : K} (d : V) (h : k ∈ keysOf l) : lookupK l k = some ((lookupK l k).getD d) := by
  obtain ⟨v, hv⟩ := exists_lookupK_of_mem_keys h
  rw [hv]
  rfl

theorem lookupK_count_one_of_snap {R K : Type} [DecidableEq K] (key : R → K)
    {snap : List R} (hnd : (snap.map key).Nodup) {r : R} (hr : r ∈ snap) :
    lookupK (snap.map (fun r => (key r, 1))) (key r) = some 1 := by
  have hkeys : keysOf (snap.map (fun r => (key r, (1 : ℕ)))) = snap.map key := by
    simp [keysOf, List.map_map]
  refine lookupK_eq_some_of_mem_nodup ?_ ?_
  · rw [hkeys]
    exact hnd
  · exact List.mem_map_of_mem _ hr

theorem finalizeInternal_snapshot (ts hostn : String) (snap : List InternalRow)
    (hnd : (snap.map iKey).Nodup) (hmem : ∀ r ∈ snap, ThreeDec r.mem) :
    finalizeInternal ts hostn (accumSnapInternal (AggState.empty IKey) snap) =
      snap.map (fun r => ⟨ts, hostn, r.user, r.gpu, r.mem, r.total, (r.util : ℚ)⟩) := by
  obtain ⟨ha, hc⟩ := accumSnap_fresh iKey InternalRow.mem InternalRow.util InternalRow.total
    snap (AggState.empty IKey) hnd (by simp [AggState.empty, keysOf])
    (by simp [AggState.empty, keysOf])
  unfold finalizeInternal accumSnapInternal
  rw [ha, hc]
  simp only [AggState.empty, List.nil_append, List.map_map]
  refine List.map_congr_left ?_
  intro r hr
  have hlook : lookupK (snap.map (fun r => (iKey r, 1))) (iKey r) = some 1 :=
    lookupK_count_one_of_snap iKey hnd hr
  simp only [Function.comp_apply, hlook]
  have h1 : ((some 1).getD 0 : ℕ) = 1 := rfl
  rw [h1]
  have hdiv1 : ∀ q : ℚ, q / ((1 : ℕ) : ℚ) = q := by
    intro q
    norm_num
  rw [hdiv1, hdiv1]
  have hm : pyRound r.mem 3 = r.mem := (hmem r hr).pyRound_eq
  have hu : pyRound ((r.util : ℚ)) 1 = (r.util : ℚ) := pyRound_one_intCast r.util
  rw [hm, hu]
  rfl

theorem finalizeExternal_snapshot (ts hostn : String) (snap : List ExternalRow)
    (hnd : (snap.map eKey).Nodup) (hmem : ∀ r ∈ snap, ThreeDec r.mem) :
    finalizeExternal ts hostn (accumSnapExternal (AggState.empty EKey) snap) =
      snap.map (fun r =>
        ⟨ts, hostn, r.pid, r.cmd, r.user, r.gpu, r.mem, r.total, (r.util : ℚ)⟩) := by
  obtain ⟨ha, hc⟩ := accumSnap_fresh eKey ExternalRow.mem ExternalRow.util ExternalRow.total
    snap (AggState.empty EKey) hnd (by simp [AggState.empty, keysOf])
    (by simp [AggState.empty, keysOf])
  unfold finalizeExternal accumSnapExternal
  rw [ha, hc]
  simp only [AggState.empty, List.nil_append, List.map_map]
  refine List.map_congr_left ?_
  intro r hr
  have hlook : lookupK (snap.map (fun r => (eKey r, 1))) (eKey r) = some 1 :=
    lookupK_count_one_of_snap eKey hnd hr
  simp only [Function.comp_apply, hlook]
  have h1 : ((some 1).getD 0 : ℕ) = 1 := rfl
  rw [h1]
  have hdiv1 : ∀ q : ℚ, q / ((1 : ℕ) : ℚ) = q := by
    intro q
    norm_num
  rw [hdiv1, hdiv1]
  have hm : pyRound r.mem 3 = r.mem := (hmem r hr).pyRound_eq
  have hu : pyRound ((r.util : ℚ)) 1 = (r.util : ℚ) := pyRound_one_intCast r.util
  rw [hm, hu]
  rfl

theorem pollTimes_of_nonpos {dur interval endT : Int} (h : dur ≤ 0) :
    ∀ (fuel : ℕ) (t : Int), pollTimes dur interval endT fuel t = [t] := by
  intro fuel t
  cases fuel with
  | zero => rfl
  | succ f => simp [pollTimes, h]

theorem pollTimes_stop {dur interval endT t : Int} (h : endT ≤ t) :
    ∀ fuel : ℕ, pollTimes dur interval endT fuel t = [t] := by
  intro fuel
  cases fuel with
  | zero => rfl
  | succ f => simp [pollTimes, h]

theorem pollTimes_three (t0 : Int) (fuel : ℕ) (h : 2 ≤ fuel) :
    pollTimes 120 60 (t0 + 120) fuel t0 = [t0, t0 + 60, t0 + 120] := by
  match fuel, h with
  | f + 2, _ =>
    have h1 : ¬(t0 + 120 ≤ t0 ∨ (120 : ℤ) ≤ 0) := by omega
    have h2 : ¬(t0 + 120 ≤ t0 + 60 ∨ (120 : ℤ) ≤ 0) := by omega
    have e1 : t0 + 60 + 60 = t0 + 120 := by ring
    simp only [pollTimes, if_neg h1, if_neg h2, e1]
    rw [pollTimes_stop (le_refl _)]

theorem countP_key_eq_one {R K : Type} [DecidableEq K] (f : R → K) :
    ∀ {l : List R} {k : K}, (l.map f).Nodup → k ∈ l.map f →
      l.countP (fun r => decide (f r = k)) = 1 := by
  intro l
  induction l with
  | nil => intro k _ hk; simp at hk
  | cons a rest ih =>
    intro k hnd hk
    simp only [List.map_cons, List.nodup_cons] at hnd
    simp only [List.map_cons, List.mem_cons] at hk
    rw [List.countP_cons]
    rcases hk with rfl | hk
    · have hz : rest.countP (fun r => decide (f r = f a)) = 0 := by
        rw [List.countP_eq_zero]
        intro r hr hpr
        simp only [decide_eq_true_eq] at hpr
        exact hnd.1 (hpr ▸ List.mem_map_of_mem f hr)
      rw [hz, decide_eq_true rfl, if_pos rfl]
    · have hne : f a ≠ k := by
        intro h
        exact hnd.1 (h ▸ hk)
      rw [ih hnd.2 hk, decide_eq_false hne]
      simp

theorem accumSnapFold_inv {R K : Type} [DecidableEq K] (key : R → K) (mem : R → ℚ)
    (util : R → Int) (total : R → ℚ) :
    ∀ (snaps : List (List R)) (st : AggState K),
      (keysOf st.agg = keysOf st.count ∧ ∀ kc ∈ st.count, 1 ≤ kc.2) →
      keysOf (snaps.foldl (accumSnap key mem util total) st).agg =
          keysOf (snaps.foldl (accumSnap key mem util total) st).count ∧
        ∀ kc ∈ (snaps.foldl (accumSnap key mem util total) st).count, 1 ≤ kc.2 := by
  intro snaps
  induction snaps with
  | nil => exact fun st h => h
  | cons snap rest ih =>
    intro st h
    refine ih _ ⟨?_, ?_⟩
    · exact accumSnap_keys_eq key mem util total snap st h.1
    · exact accumSnap_count_pos key mem util total snap st h.2

theorem agg_lookup_count_pos {K : Type} [DecidableEq K] {st : AggState K}
    (hkeys : keysOf st.agg = keysOf st.count) (hpos : ∀ kc ∈ st.count, 1 ≤ kc.2) :
    ∀ ks ∈ st.agg, ∃ c, lookupK st.count ks.1 = some c ∧ 1 ≤ c := by
  intro ks hks
  have h1 : ks.1 ∈ keysOf st.count := hkeys ▸ mem_keysOf_of_mem hks
  obtain ⟨c, hc⟩ := exists_lookupK_of_mem_keys h1
  exact ⟨c, hc, hpos _ (mem_of_lookupK_eq_some hc)⟩

/-- C9: if the window produced zero accumulated keys (`agg` is empty),
finalize returns the empty row list in either mode and the guarded
`ws.update` call is skipped (zero write calls); this outcome is an
ordinary value, not an error. -/
theorem claim9_empty_window (ts hostn : String) (stI : AggState IKey) (stE : AggState EKey)
    (hI : stI.agg = []) (hE : stE.agg = []) :
    finalizeInternal ts hostn stI = [] ∧
      sheetUpdateCalls (finalizeInternal ts hostn stI) = 0 ∧
      finalizeExternal ts hostn stE = [] ∧
      sheetUpdateCalls (finalizeExternal ts hostn stE) = 0 := by
  have h1 : finalizeInternal ts hostn stI = [] := by
    simp [finalizeInternal, hI]
  have h2 : finalizeExternal ts hostn stE = [] := by
    simp [finalizeExternal, hE]
  refine ⟨h1, ?_, h2, ?_⟩
  · rw [h1]
    rfl
  · rw [h2]
    rfl

/-- Witness for C9 at the empty aggregation states. -/
theorem claim9_empty_window_witness :
    (AggState.empty IKey).agg = [] ∧
      (finalizeInternal "t" "h" (AggState.empty IKey) = [] ∧
        sheetUpdateCalls (finalizeInternal "t" "h" (AggState.empty IKey)) = 0 ∧
        finalizeExternal "t" "h" (AggState.empty EKey) = [] ∧
        sheetUpdateCalls (finalizeExternal "t" "h" (AggState.empty EKey)) = 0) :=
  ⟨rfl, claim9_empty_window "t" "h" (AggState.empty IKey) (AggState.empty EKey) rfl rfl⟩

/-- C10: after any sequence of accumulation steps (whole snapshots
followed by a partial snapshot, in either mode) the `agg` and `count`
dicts hold exactly the same keys, every stored count is at least 1, and
for every entry finalize would iterate over, the `count` lookup succeeds
with a positive value — so the divisions `mem_sum / c` and `util_sum / c`
are never divisions by zero. -/
theorem claim10_agg_count_aligned (snaps : List (List InternalRow)) (rows : List InternalRow)
    (esnaps : List (List ExternalRow)) (erows : List ExternalRow) :
    (keysOf (accumSnapInternal (snaps.foldl accumSnapInternal (AggState.empty IKey)) rows).agg =
        keysOf (accumSnapInternal (snaps.foldl accumSnapInternal (AggState.empty IKey)) rows).count ∧
      (∀ kc ∈ (accumSnapInternal (snaps.foldl accumSnapInternal (AggState.empty IKey)) rows).count,
        1 ≤ kc.2) ∧
      ∀ ks ∈ (accumSnapInternal (snaps.foldl accumSnapInternal (AggState.empty IKey)) rows).agg,
        ∃ c, lookupK (accumSnapInternal (snaps.foldl accumSnapInternal (AggState.empty IKey)) rows).count ks.1 =
          some c ∧ 1 ≤ c) ∧
    (keysOf (accumSnapExternal (esnaps.foldl accumSnapExternal (AggState.empty EKey)) erows).agg =
        keysOf (accumSnapExternal (esnaps.foldl accumSnapExternal (AggState.empty EKey)) erows).count ∧
      (∀ kc ∈ (accumSnapExternal (esnaps.foldl accumSnapExternal (AggState.empty EKey)) erows).count,
        1 ≤ kc.2) ∧
      ∀ ks ∈ (accumSnapExternal (esnaps.foldl accumSnapExternal (AggState.empty EKey)) erows).agg,
        ∃ c, lookupK (accumSnapExternal (esnaps.foldl accumSnapExternal (AggState.empty EKey)) erows).count ks.1 =
          some c ∧ 1 ≤ c) := by
  constructor
  · have hfold := accumSnapFold_inv iKey InternalRow.mem InternalRow.util InternalRow.total
      snaps (AggState.empty IKey) ⟨rfl, by simp [AggState.empty]⟩
    have h1 := accumSnap_keys_eq iKey InternalRow.mem InternalRow.util InternalRow.total
      rows _ hfold.1
    have h2 := accumSnap_count_pos iKey InternalRow.mem InternalRow.util InternalRow.total
      rows _ hfold.2
    exact ⟨h1, h2, agg_lookup_count_pos h1 h2⟩
  · have hfold := accumSnapFold_inv eKey ExternalRow.mem ExternalRow.util ExternalRow.total
      esnaps (AggState.empty EKey) ⟨rfl, by simp [AggState.empty]⟩
    have h1 := accumSnap_keys_eq eKey ExternalRow.mem ExternalRow.util ExternalRow.total
      erows _ hfold.1
    have h2 := accumSnap_count_pos eKey ExternalRow.mem ExternalRow.util ExternalRow.total
      erows _ hfold.2
    exact ⟨h1, h2, agg_lookup_count_pos h1 h2⟩

/-- C1 counterexample: two observations of the same key `("u", 0)` whose
total-capacity readings differ (10 first, then 20).  The finalized row
carries 10 — the first-seen total — not the last-seen 20, because
`agg.setdefault` seeds the stored total once and nothing ever overwrites
it. -/
theorem claim1_counterexample :
    (finalizeInternal "t" "h"
        (accumSnapInternal (accumSnapInternal (AggState.empty IKey)
          [⟨"u", 0, 1, 10, 50⟩]) [⟨"u", 0, 2, 20, 50⟩])).map SummaryRowInternal.total
      = [10] ∧ (10 : ℚ) ≠ 20 := by
  constructor
  · simp [accumSnapInternal, accumSnap, accumObs, aggSetStep, bump, AggState.empty,
      finalizeInternal, lookupK, iKey]
  · norm_num

/-- C1 amended: `stats = agg.setdefault(key, [0.0, 0.0, total])` seeds
the stored total only when the key is first created; on every later
matching observation the stored total is left untouched, so the
SummaryRow carries the first-seen total-capacity reading, not the most
recent one. -/
theorem claim1_total_first_seen {K : Type} [DecidableEq K] (st : AggState K) (key : K)
    (m : ℚ) (u : Int) (t : ℚ) :
    lookupK (accumObs st key m u t).agg key =
      some (match lookupK st.agg key with
            | some s => ⟨s.memSum + m, s.utilSum + (u : ℚ), s.total⟩
            | none => ⟨m, (u : ℚ), t⟩) :=
  lookupK_aggSetStep_self st.agg key m u t

/-- C2: per poll and per mode, a device with an empty resident-process
list contributes exactly one synthetic IDLE observation, and a device
with a non-empty list contributes none — assuming no real user is named
"IDLE" and no real process has pid 0 (otherwise a genuine row would be
indistinguishable from the synthetic one). -/
theorem claim2_idle_exactly_once (resolve : Resolver) (devs : List GpuDevice) (i : ℕ)
    (dev : GpuDevice)
    (hres : ∀ pid pr, resolve pid = some pr → pr.username ≠ "IDLE")
    (hpid : ∀ d ∈ devs, ∀ p ∈ procList d, p.pid ≠ 0)
    (hdev : devs[i]? = some dev) :
    (snapshotInternal resolve devs).countP (isIdleInternal i) =
        (if procList dev = [] then 1 else 0) ∧
      (snapshotExternal resolve devs).countP (isIdleExternal i) =
        (if procList dev = [] then 1 else 0) := by
  constructor
  · unfold snapshotInternal
    have hp : ∀ r, isIdleInternal i r = true → r.gpu = 0 + i := by
      intro r hr
      simp only [isIdleInternal, decide_eq_true_eq] at hr
      omega
    rw [countP_snapshotInternalAux resolve _ devs 0 i dev hdev hp]
    rw [Nat.zero_add]
    by_cases hpl : procList dev = []
    · rw [if_pos hpl]
      exact countP_isIdleInternal_of_empty hpl
    · rw [if_neg hpl]
      exact countP_isIdleInternal_of_ne hres hpl
  · unfold snapshotExternal
    have hp : ∀ r, isIdleExternal i r = true → r.gpu = 0 + i := by
      intro r hr
      simp only [isIdleExternal, decide_eq_true_eq] at hr
      omega
    rw [countP_snapshotExternalAux resolve _ devs 0 i dev hdev hp]
    rw [Nat.zero_add]
    by_cases hpl : procList dev = []
    · rw [if_pos hpl]
      exact countP_isIdleExternal_of_empty hpl
    · rw [if_neg hpl]
      have hmem : dev ∈ devs := by
        have := List.getElem?_eq_some_iff.mp hdev
        obtain ⟨hlt, hget⟩ := this
        exact hget ▸ List.getElem_mem hlt
      exact countP_isIdleExternal_of_ne (hpid dev hmem) hpl

/-- Witness for C2: one device with no resident processes, an
always-failing resolver, and device index 0. -/
theorem claim2_idle_exactly_once_witness :
    (∀ pid pr, (fun _ : Int => (none : Option PsProc)) pid = some pr →
        pr.username ≠ "IDLE") ∧
      (∀ d ∈ [(⟨50, 1073741824, some []⟩ : GpuDevice)], ∀ p ∈ procList d, p.pid ≠ 0) ∧
      ([(⟨50, 1073741824, some []⟩ : GpuDevice)][0]? = some ⟨50, 1073741824, some []⟩) ∧
      ((snapshotInternal (fun _ => none) [⟨50, 1073741824, some []⟩]).countP
          (isIdleInternal 0) =
          (if procList ⟨50, 1073741824, some []⟩ = [] then 1 else 0) ∧
        (snapshotExternal (fun _ => none) [⟨50, 1073741824, some []⟩]).countP
          (isIdleExternal 0) =
          (if procList ⟨50, 1073741824, some []⟩ = [] then 1 else 0)) := by
  refine ⟨fun _ _ h => Option.noConfusion h, by simp [procList], rfl, ?_⟩
  exact claim2_idle_exactly_once (fun _ => none) [⟨50, 1073741824, some []⟩] 0
    ⟨50, 1073741824, some []⟩ (fun _ _ h => Option.noConfusion h) (by simp [procList]) rfl

/-- C6: a device whose process listing raises the unsupported-operation
error (`procs = none`) is treated as having an empty process list: the
snapshot still contains its synthetic IDLE row carrying the device
capacity (`total_gb`) and utilization, exactly once, in both modes, and
snapshotting remains a total function (the run does not abort). -/
theorem claim6_unsupported_idle (resolve : Resolver) (devs : List GpuDevice) (i : ℕ)
    (dev : GpuDevice) (hdev : devs[i]? = some dev) (hunsup : dev.procs = none) :
    ((⟨"IDLE", i, 0, totalGb dev, dev.util⟩ : InternalRow) ∈ snapshotInternal resolve devs ∧
      (snapshotInternal resolve devs).countP (isIdleInternal i) = 1) ∧
    ((⟨0, "IDLE", "-", i, 0, totalGb dev, dev.util⟩ : ExternalRow) ∈ snapshotExternal resolve devs ∧
      (snapshotExternal resolve devs).countP (isIdleExternal i) = 1) := by
  have hpl : procList dev = [] := by simp [procList, hunsup]
  refine ⟨⟨?_, ?_⟩, ?_, ?_⟩
  · refine mem_snapshotInternalAux_of_mem devs 0 i dev hdev ?_
    rw [Nat.zero_add, deviceRowsInternal_of_empty hpl]
    simp
  · unfold snapshotInternal
    have hp : ∀ r, isIdleInternal i r = true → r.gpu = 0 + i := by
      intro r hr
      simp only [isIdleInternal, decide_eq_true_eq] at hr
      omega
    rw [countP_snapshotInternalAux resolve _ devs 0 i dev hdev hp, Nat.zero_add]
    exact countP_isIdleInternal_of_empty hpl
  · refine mem_snapshotExternalAux_of_mem devs 0 i dev hdev ?_
    rw [Nat.zero_add, deviceRowsExternal_of_empty hpl]
    simp
  · unfold snapshotExternal
    have hp : ∀ r, isIdleExternal i r = true → r.gpu = 0 + i := by
      intro r hr
      simp only [isIdleExternal, decide_eq_true_eq] at hr
      omega
    rw [countP_snapshotExternalAux resolve _ devs 0 i dev hdev hp, Nat.zero_add]
    exact countP_isIdleExternal_of_empty hpl

/-- Witness for C6: a single device reporting the unsupported-operation
error for process listing. -/
theorem claim6_unsupported_idle_witness :
    ([(⟨50, 1073741824, none⟩ : GpuDevice)][0]? = some ⟨50, 1073741824, none⟩) ∧
      (⟨50, 1073741824, none⟩ : GpuDevice).procs = none ∧
      (((⟨"IDLE", 0, 0, totalGb ⟨50, 1073741824, none⟩, 50⟩ : InternalRow) ∈
            snapshotInternal (fun _ => none) [⟨50, 1073741824, none⟩] ∧
          (snapshotInternal (fun _ => none) [⟨50, 1073741824, none⟩]).countP
            (isIdleInternal 0) = 1) ∧
        ((⟨0, "IDLE", "-", 0, 0, totalGb ⟨50, 1073741824, none⟩, 50⟩ : ExternalRow) ∈
            snapshotExternal (fun _ => none) [⟨50, 1073741824, none⟩] ∧
          (snapshotExternal (fun _ => none) [⟨50, 1073741824, none⟩]).countP
            (isIdleExternal 0) = 1)) :=
  ⟨rfl, rfl,
    claim6_unsupported_idle (fun _ => none) [⟨50, 1073741824, none⟩] 0
      ⟨50, 1073741824, none⟩ rfl rfl⟩

/-- C5: when the identity lookup for a resident process fails (the
process vanished between device listing and lookup), the snapshot still
emits the contribution of that process — under user "unknown" in aggregated
mode, and as a row with user "unknown" and command "unknown" in detailed
mode.  Snapshotting is a total function (the failure never aborts the
cycle), and every process whose lookup succeeds still gets its ordinary
resolved row in the same poll. -/
theorem claim5_unknown_on_lookup_failure (resolve : Resolver) (devs : List GpuDevice)
    (i : ℕ) (dev : GpuDevice) (p : ProcInfo)
    (hdev : devs[i]? = some dev) (hp : p ∈ procList dev) (hfail : resolve p.pid = none) :
    (∃ m : ℚ, (⟨"unknown", i, m, totalGb dev, dev.util⟩ : InternalRow) ∈
        snapshotInternal resolve devs) ∧
      (⟨p.pid, "unknown", "unknown", i, memGb p.usedGpuMemory, totalGb dev, dev.util⟩ :
          ExternalRow) ∈ snapshotExternal resolve devs ∧
      ∀ (j : ℕ) (devj : GpuDevice) (q : ProcInfo) (pr : PsProc),
        devs[j]? = some devj → q ∈ procList devj → resolve q.pid = some pr →
        (⟨q.pid, cmdOf pr, pr.username, j, memGb q.usedGpuMemory, totalGb devj, devj.util⟩ :
            ExternalRow) ∈ snapshotExternal resolve devs := by
  have hne : procList dev ≠ [] := List.ne_nil_of_mem hp
  refine ⟨?_, ?_, ?_⟩
  · have hkey : "unknown" ∈ keysOf (usageByUser resolve (procList dev)) := by
      refine mem_keys_usageByUser.mpr ⟨p, hp, ?_⟩
      simp [userOf, hfail]
    simp only [keysOf, List.mem_map] at hkey
    obtain ⟨um, hum, humu⟩ := hkey
    refine ⟨um.2, mem_snapshotInternalAux_of_mem devs 0 i dev hdev ?_⟩
    rw [Nat.zero_add]
    have hub : ¬(usageByUser resolve (procList dev)).isEmpty = true := by
      simpa [List.isEmpty_iff] using usageByUser_ne_nil resolve hne
    simp only [deviceRowsInternal, if_neg hub, List.mem_map]
    exact ⟨um, hum, by rw [← humu]⟩
  · refine mem_snapshotExternalAux_of_mem devs 0 i dev hdev ?_
    rw [Nat.zero_add]
    have hrow : externalProcRow resolve i dev p =
        ⟨p.pid, "unknown", "unknown", i, memGb p.usedGpuMemory, totalGb dev, dev.util⟩ := by
      unfold externalProcRow
      rw [hfail]
    simp only [deviceRowsExternal, List.mem_append]
    exact Or.inr (hrow ▸ List.mem_map_of_mem _ hp)
  · intro j devj q pr hdevj hq hres
    refine mem_snapshotExternalAux_of_mem devs 0 j devj hdevj ?_
    rw [Nat.zero_add]
    have hrow : externalProcRow resolve j devj q =
        ⟨q.pid, cmdOf pr, pr.username, j, memGb q.usedGpuMemory, totalGb devj, devj.util⟩ := by
      unfold externalProcRow
      rw [hres]
    simp only [deviceRowsExternal, List.mem_append]
    exact Or.inr (hrow ▸ List.mem_map_of_mem _ hq)

/-- Witness for C5: one device with one resident process whose lookup
fails. -/
theorem claim5_unknown_on_lookup_failure_witness :
    ([(⟨50, 1073741824, some [⟨7, 1073741824⟩]⟩ : GpuDevice)][0]? =
        some ⟨50, 1073741824, some [⟨7, 1073741824⟩]⟩) ∧
      (⟨7, 1073741824⟩ : ProcInfo) ∈ procList ⟨50, 1073741824, some [⟨7, 1073741824⟩]⟩ ∧
      ((fun _ : Int => (none : Option PsProc)) (7 : Int) = none) ∧
      ((∃ m : ℚ, (⟨"unknown", 0, m, totalGb ⟨50, 1073741824, some [⟨7, 1073741824⟩]⟩,
            50⟩ : InternalRow) ∈
          snapshotInternal (fun _ => none) [⟨50, 1073741824, some [⟨7, 1073741824⟩]⟩]) ∧
        (⟨7, "unknown", "unknown", 0, memGb 1073741824,
            totalGb ⟨50, 1073741824, some [⟨7, 1073741824⟩]⟩, 50⟩ : ExternalRow) ∈
          snapshotExternal (fun _ => none) [⟨50, 1073741824, some [⟨7, 1073741824⟩]⟩] ∧
        ∀ (j : ℕ) (devj : GpuDevice) (q : ProcInfo) (pr : PsProc),
          [(⟨50, 1073741824, some [⟨7, 1073741824⟩]⟩ : GpuDevice)][j]? = some devj →
          q ∈ procList devj → (fun _ : Int => (none : Option PsProc)) q.pid = some pr →
          (⟨q.pid, cmdOf pr, pr.username, j, memGb q.usedGpuMemory, totalGb devj,
              devj.util⟩ : ExternalRow) ∈
            snapshotExternal (fun _ => none) [⟨50, 1073741824, some [⟨7, 1073741824⟩]⟩]) := by
  refine ⟨rfl, by simp [procList], rfl, ?_⟩
  exact claim5_unknown_on_lookup_failure (fun _ => none)
    [⟨50, 1073741824, some [⟨7, 1073741824⟩]⟩] 0 ⟨50, 1073741824, some [⟨7, 1073741824⟩]⟩
    ⟨7, 1073741824⟩ rfl (by simp [procList]) rfl

/-- C3: when `LOG_DURATION <= 0` the break condition of the loop holds after
the very first iteration, so exactly one snapshot is taken and
accumulated, and finalize reproduces that single sample exactly: for each
key the mean memory equals its sampled memory and its mean utilization
equals its sampled utilization (sample_count = 1, and the sampled values
are exact at the respective rounding precisions).  For detailed mode the
device lists are assumed to report each pid at most once per device. -/
theorem claim3_duration_nonpos_single_sample (dur interval : Int) (fuel : ℕ) (t0 : Int)
    (resolve : Resolver) (devs : List GpuDevice) (ts hostn : String)
    (hdur : dur ≤ 0)
    (hpids : ∀ d ∈ devs, ((procList d).map ProcInfo.pid).Nodup) :
    pollTimes dur interval (t0 + max dur 0) fuel t0 = [t0] ∧
      finalizeInternal ts hostn
          (runInternal dur interval fuel t0 (fun _ => snapshotInternal resolve devs)) =
        (snapshotInternal resolve devs).map
          (fun r => ⟨ts, hostn, r.user, r.gpu, r.mem, r.total, (r.util : ℚ)⟩) ∧
      finalizeExternal ts hostn
          (runExternal dur interval fuel t0 (fun _ => snapshotExternal resolve devs)) =
        (snapshotExternal resolve devs).map
          (fun r => ⟨ts, hostn, r.pid, r.cmd, r.user, r.gpu, r.mem, r.total, (r.util : ℚ)⟩) := by
  have hpt := @pollTimes_of_nonpos dur interval (t0 + max dur 0) hdur fuel t0
  refine ⟨hpt, ?_, ?_⟩
  · unfold runInternal
    rw [hpt]
    simp only [List.foldl_cons, List.foldl_nil]
    exact finalizeInternal_snapshot ts hostn _ (nodup_keys_snapshotInternalAux resolve devs 0)
      (fun r hr => threeDec_mem_snapshotInternalAux hr)
  · unfold runExternal
    rw [hpt]
    simp only [List.foldl_cons, List.foldl_nil]
    exact finalizeExternal_snapshot ts hostn _
      (nodup_keys_snapshotExternalAux resolve devs 0 hpids)
      (fun r hr => threeDec_mem_snapshotExternalAux hr)

/-- Witness for C3: duration 0 with one idle device. -/
theorem claim3_duration_nonpos_single_sample_witness :
    ((0 : ℤ) ≤ 0) ∧
      (∀ d ∈ [(⟨50, 1073741824, some []⟩ : GpuDevice)],
        ((procList d).map ProcInfo.pid).Nodup) ∧
      (pollTimes 0 60 ((0 : ℤ) + max 0 0) 3 0 = [0] ∧
        finalizeInternal "t" "h"
            (runInternal 0 60 3 0 (fun _ =>
              snapshotInternal (fun _ => none) [⟨50, 1073741824, some []⟩])) =
          (snapshotInternal (fun _ => none) [⟨50, 1073741824, some []⟩]).map
            (fun r => ⟨"t", "h", r.user, r.gpu, r.mem, r.total, (r.util : ℚ)⟩) ∧
        finalizeExternal "t" "h"
            (runExternal 0 60 3 0 (fun _ =>
              snapshotExternal (fun _ => none) [⟨50, 1073741824, some []⟩])) =
          (snapshotExternal (fun _ => none) [⟨50, 1073741824, some []⟩]).map
            (fun r => ⟨"t", "h", r.pid, r.cmd, r.user, r.gpu, r.mem, r.total,
              (r.util : ℚ)⟩)) := by
  refine ⟨le_refl 0, by simp [procList], ?_⟩
  exact claim3_duration_nonpos_single_sample 0 60 3 0 (fun _ => none)
    [⟨50, 1073741824, some []⟩] "t" "h" (le_refl 0) (by simp [procList])

/-- C8: accumulating the same observation N ≥ 1 times into a fresh
aggregator yields a single accumulator entry with sample_count = N, and
the finalized row has mean memory equal to the memory of the observation
(its memory being a three-decimal value, as the snapshot stage
guarantees) and mean utilization equal to the utilization of the
observation. -/
theorem claim8_idempotent_grouping (r : InternalRow) (N : ℕ) (ts hostn : String)
    (hN : 1 ≤ N) (hmem : ThreeDec r.mem) :
    lookupK (accumSnapInternal (AggState.empty IKey) (List.replicate N r)).count (iKey r) =
        some N ∧
      finalizeInternal ts hostn (accumSnapInternal (AggState.empty IKey) (List.replicate N r)) =
        [⟨ts, hostn, r.user, r.gpu, r.mem, r.total, (r.util : ℚ)⟩] := by
  obtain ⟨n, rfl⟩ : ∃ n, N = n + 1 := ⟨N - 1, by omega⟩
  have hst := accumSnap_replicate iKey InternalRow.mem InternalRow.util InternalRow.total r n
  unfold accumSnapInternal
  rw [hst]
  have hc : ((n + 1 : ℕ) : ℚ) ≠ 0 := by
    have : (0 : ℚ) < ((n + 1 : ℕ) : ℚ) := by exact_mod_cast Nat.succ_pos n
    exact this.ne'
  have hm : ((n + 1 : ℕ) : ℚ) * r.mem / ((n + 1 : ℕ) : ℚ) = r.mem :=
    mul_div_cancel_left₀ r.mem hc
  have hu : ((n + 1 : ℕ) : ℚ) * (r.util : ℚ) / ((n + 1 : ℕ) : ℚ) = (r.util : ℚ) :=
    mul_div_cancel_left₀ _ hc
  constructor
  · simp [lookupK]
  · have hlook : lookupK [(iKey r, n + 1)] (iKey r) = some (n + 1) := by
      simp [lookupK]
    simp only [finalizeInternal, List.map_cons, List.map_nil, hlook, Option.getD_some,
      hm, hu, hmem.pyRound_eq, pyRound_one_intCast]
    rfl

/-- C4: with duration 120 and poll interval 60, under the injected clock
(instantaneous sampling, each sleep advancing time by exactly the
interval) the loop samples exactly three times, at t0, t0+60 and t0+120,
and every aggregation key present in all three snapshots ends the window
with sample_count = 3. -/
theorem claim4_three_polls (t0 : Int) (fuel : ℕ) (resolve : Resolver)
    (devsAt : Int → List GpuDevice) (k : IKey)
    (hfuel : 2 ≤ fuel)
    (hk : ∀ t ∈ [t0, t0 + 60, t0 + 120],
      k ∈ (snapshotInternal resolve (devsAt t)).map iKey) :
    pollTimes 120 60 (t0 + max 120 0) fuel t0 = [t0, t0 + 60, t0 + 120] ∧
      lookupK (runInternal 120 60 fuel t0
        (fun t => snapshotInternal resolve (devsAt t))).count k = some 3 := by
  have hmax : (max (120 : ℤ) 0) = 120 := by norm_num
  have hpt : pollTimes 120 60 (t0 + max 120 0) fuel t0 = [t0, t0 + 60, t0 + 120] := by
    rw [hmax]
    exact pollTimes_three t0 fuel hfuel
  refine ⟨hpt, ?_⟩
  unfold runInternal
  rw [hpt]
  simp only [List.foldl_cons, List.foldl_nil]
  unfold accumSnapInternal
  have h0 := hk t0 (by simp)
  have h1 := hk (t0 + 60) (by simp)
  have h2 := hk (t0 + 120) (by simp)
  have hc0 : (snapshotInternal resolve (devsAt t0)).countP
      (fun r => decide (iKey r = k)) = 1 :=
    countP_key_eq_one iKey (nodup_keys_snapshotInternalAux resolve (devsAt t0) 0) h0
  have hc1 : (snapshotInternal resolve (devsAt (t0 + 60))).countP
      (fun r => decide (iKey r = k)) = 1 :=
    countP_key_eq_one iKey (nodup_keys_snapshotInternalAux resolve (devsAt (t0 + 60)) 0) h1
  have hc2 : (snapshotInternal resolve (devsAt (t0 + 120))).countP
      (fun r => decide (iKey r = k)) = 1 :=
    countP_key_eq_one iKey (nodup_keys_snapshotInternalAux resolve (devsAt (t0 + 120)) 0) h2
  have hg : (lookupK (accumSnap iKey InternalRow.mem InternalRow.util InternalRow.total
      (accumSnap iKey InternalRow.mem InternalRow.util InternalRow.total
        (accumSnap iKey InternalRow.mem InternalRow.util InternalRow.total
          (AggState.empty IKey) (snapshotInternal resolve (devsAt t0)))
        (snapshotInternal resolve (devsAt (t0 + 60))))
      (snapshotInternal resolve (devsAt (t0 + 120)))).count k).getD 0 = 3 := by
    rw [lookupK_getD_count_accumSnap, lookupK_getD_count_accumSnap,
      lookupK_getD_count_accumSnap, hc0, hc1, hc2]
    simp [AggState.empty, lookupK]
  have hmem : k ∈ keysOf (accumSnap iKey InternalRow.mem InternalRow.util InternalRow.total
      (accumSnap iKey InternalRow.mem InternalRow.util InternalRow.total
        (accumSnap iKey InternalRow.mem InternalRow.util InternalRow.total
          (AggState.empty IKey) (snapshotInternal resolve (devsAt t0)))
        (snapshotInternal resolve (devsAt (t0 + 60))))
      (snapshotInternal resolve (devsAt (t0 + 120)))).count := by
    rw [mem_keys_count_accumSnap]
    obtain ⟨r, hr, hrk⟩ := List.mem_map.mp h2
    exact Or.inr ⟨r, hr, hrk⟩
  rw [lookupK_eq_some_getD_of_mem_keys 0 hmem, hg]

/-- Witness for C4 with one constantly idle device and fuel 2. -/
theorem claim4_three_polls_witness :
    (2 ≤ 2) ∧
      (∀ t ∈ [(0 : ℤ), 0 + 60, 0 + 120],
        ("IDLE", 0) ∈ (snapshotInternal (fun _ => none)
          ((fun _ : ℤ => [(⟨50, 1073741824, some []⟩ : GpuDevice)]) t)).map iKey) ∧
      (pollTimes 120 60 ((0 : ℤ) + max 120 0) 2 0 = [0, 0 + 60, 0 + 120] ∧
        lookupK (runInternal 120 60 2 0 (fun t => snapshotInternal (fun _ => none)
          ((fun _ : ℤ => [(⟨50, 1073741824, some []⟩ : GpuDevice)]) t))).count
          ("IDLE", 0) = some 3) := by
  have hk : ∀ t ∈ [(0 : ℤ), 0 + 60, 0 + 120],
      ("IDLE", 0) ∈ (snapshotInternal (fun _ => none)
        ((fun _ : ℤ => [(⟨50, 1073741824, some []⟩ : GpuDevice)]) t)).map iKey := by
    intro t _
    simp [snapshotInternal, snapshotInternalAux, deviceRowsInternal, usageByUser,
      procList, iKey]
  exact ⟨le_refl 2, hk,
    claim4_three_polls 0 2 (fun _ => none)
      (fun _ => [⟨50, 1073741824, some []⟩]) ("IDLE", 0) (le_refl 2) hk⟩

/-- Witness for C8 at a concrete observation accumulated twice. -/
theorem claim8_idempotent_grouping_witness :
    (1 ≤ 2) ∧ ThreeDec (3 / 2 : ℚ) ∧
      (lookupK (accumSnapInternal (AggState.empty IKey)
          (List.replicate 2 (⟨"u", 0, 3 / 2, 16, 50⟩ : InternalRow))).count
          (iKey ⟨"u", 0, 3 / 2, 16, 50⟩) = some 2 ∧
        finalizeInternal "t" "h" (accumSnapInternal (AggState.empty IKey)
            (List.replicate 2 (⟨"u", 0, 3 / 2, 16, 50⟩ : InternalRow))) =
          [⟨"t", "h", "u", 0, 3 / 2, 16, ((50 : ℤ) : ℚ)⟩]) := by
  have h32 : ThreeDec (3 / 2 : ℚ) := ⟨1500, by norm_num⟩
  exact ⟨by omega, h32,
    claim8_idempotent_grouping ⟨"u", 0, 3 / 2, 16, 50⟩ 2 "t" "h" (by omega) h32⟩

/-- C7: Scenario B — duration 0, one device at utilization 50 with 16
GiB total, two processes owned by "alice" using 1.0 GiB and 1.5 GiB.
Aggregated mode finalizes to exactly one row for ("alice", 0) with
memory 2.5 GB; detailed mode finalizes to exactly two rows.  In general,
each per-user memory the aggregated snapshot emits equals the sum, over
the processes of that user, of `round(bytes / 2^30, 3)`. -/
theorem claim7_scenario_b :
    (finalizeInternal "t" "h" (runInternal 0 60 3 0 (fun _ =>
        snapshotInternal aliceResolve [aliceDev])) =
      [⟨"t", "h", "alice", 0, 5 / 2, 16, 50⟩]) ∧
    ((finalizeExternal "t" "h" (runExternal 0 60 3 0 (fun _ =>
        snapshotExternal aliceResolve [aliceDev]))).length = 2) ∧
    ∀ (resolve : Resolver) (procs : List ProcInfo) (u : String) (m : ℚ),
      (u, m) ∈ usageByUser resolve procs →
      m = ((procs.filter (fun p => decide (userOf resolve p.pid = u))).map
        (fun p => memGb p.usedGpuMemory)).sum := by
  have hmem1 : memGb 1073741824 = 1 := by
    norm_num [memGb, gib, pyRound, roundHalfEven]
  have hmem2 : memGb 1610612736 = 3 / 2 := by
    norm_num [memGb, gib, pyRound, roundHalfEven]
  have htot : totalGb aliceDev = 16 := by
    norm_num [totalGb, memGb, gib, pyRound, roundHalfEven, aliceDev]
  have hpt : pollTimes 0 60 ((0 : ℤ) + max 0 0) 3 0 = [0] :=
    @pollTimes_of_nonpos 0 60 ((0 : ℤ) + max 0 0) (by norm_num) 3 0
  have hpl : procList aliceDev = [⟨1, 1073741824⟩, ⟨2, 1610612736⟩] := rfl
  have hut : aliceDev.util = 50 := rfl
  refine ⟨?_, ?_, ?_⟩
  · have hsnap : snapshotInternal aliceResolve [aliceDev] =
        [⟨"alice", 0, 5 / 2, 16, 50⟩] := by
      norm_num [snapshotInternal, snapshotInternalAux, deviceRowsInternal, usageByUser,
        addUsage, userOf, aliceResolve, hpl, hut, hmem1, hmem2, htot]
    have hnod : ((snapshotInternal aliceResolve [aliceDev]).map iKey).Nodup :=
      nodup_keys_snapshotInternalAux aliceResolve [aliceDev] 0
    unfold runInternal
    rw [hpt]
    simp only [List.foldl_cons, List.foldl_nil]
    rw [finalizeInternal_snapshot "t" "h" _ hnod
      (fun r hr => threeDec_mem_snapshotInternalAux hr), hsnap]
    norm_num
  · have hnod : ((snapshotExternal aliceResolve [aliceDev]).map eKey).Nodup :=
      nodup_keys_snapshotExternalAux aliceResolve [aliceDev] 0 (by simp [hpl])
    unfold runExternal
    rw [hpt]
    simp only [List.foldl_cons, List.foldl_nil]
    rw [finalizeExternal_snapshot "t" "h" _ hnod
      (fun r hr => threeDec_mem_snapshotExternalAux hr), List.length_map]
    simp [snapshotExternal, snapshotExternalAux, deviceRowsExternal, hpl]
  · intro resolve procs u m hm
    have hnd := nodup_keys_usageByUser resolve procs
    have hlook := lookupK_eq_some_of_mem_nodup hnd hm
    have hsum := lookupK_getD_usageByUser resolve procs u
    rw [hlook] at hsum
    simpa using hsum

/-- Witness for the general per-user-sum clause of C7 at a concrete process
list. -/
theorem claim7_scenario_b_witness :
    ("alice", (1 : ℚ)) ∈ usageByUser aliceResolve [⟨1, 1073741824⟩] ∧
      (1 : ℚ) = (([(⟨1, 1073741824⟩ : ProcInfo)].filter
          (fun p => decide (userOf aliceResolve p.pid = "alice"))).map
        (fun p => memGb p.usedGpuMemory)).sum := by
  have hmem1 : memGb 1073741824 = 1 := by
    norm_num [memGb, gib, pyRound, roundHalfEven]
  have hm : ("alice", (1 : ℚ)) ∈ usageByUser aliceResolve [⟨1, 1073741824⟩] := by
    simp [usageByUser, addUsage, userOf, aliceResolve, hmem1]
  exact ⟨hm, claim7_scenario_b.2.2 aliceResolve [⟨1, 1073741824⟩] "alice" 1 hm⟩

end GpuLogger
